import Mathlib

/-!
Verification development for the organization/repository `package.json`
synchronization pipeline (Next.js + Prisma service).

Shallow embedding of:
- `lib/syncOrganizationRepos.js` (`syncOrganizationRepos`): per-repository
  reconciliation over a Prisma store (organization / repository / packageJson
  tables), batching with a fixed batch size and inter-batch delay, counters.
- `lib/github.js` (`getPackageJsonContent`): its observable outcomes are
  modelled by the `FetchResult` type (success with parseable content, success
  with unparseable content, 404, other error status).
- `lib/services/githubService.js` (`findAllPackageJsons`, `shouldSkipDirectory`).
- `lib/services/packageAnalyzerService.js` (`prepareDependenciesData`,
  `saveDependencies`, `preparePeopleData`).

Database state is explicit (`DB`); each Prisma call becomes a pure state
transformation.  Timestamps are `Nat` values supplied per sync run.  Within a
batch the source runs repository units of work concurrently, but each unit is
a single serialized database transaction and counter increments depend only on
the fetch status, so the database semantics are modelled as the sequential
fold over the listed repositories (the linearization of the transactions).
-/

/-- Replace the first element of a list satisfying `p` by its image under `f`
(the semantics of a Prisma `update where <unique key>` on a list of rows). -/
def updateFirst (p : α → Bool) (f : α → α) : List α → List α
  | [] => []
  | x :: xs => if p x then f x :: xs else x :: updateFirst p f xs

/-- Organization row (`organizations` table): identity key is `name`. -/
structure OrgRow where
  id : Nat
  name : String
deriving DecidableEq

/-- Repository row (`repositories` table). `githubId` is the remote numeric
id (unique), `hasPackageJson` the manifest-presence flag, `lastFetchedAt` the
timestamp refreshed on every sync attempt. -/
structure RepoRow where
  id : Nat
  organizationId : Nat
  name : String
  fullName : String
  url : String
  defaultBranch : String
  description : Option String
  githubId : Nat
  lastFetchedAt : Nat
  hasPackageJson : Bool
deriving DecidableEq

/-- Manifest row (`package_jsons` table), one per repository
(`repositoryId` unique).  Dependency/script maps are embedded columns of this
row, as in the Prisma model used by `syncOrganizationRepos`. -/
structure PkgRow where
  repositoryId : Nat
  name : Option String
  version : Option String
  description : Option String
  author : Option String
  license : Option String
  dependencies : List (String × String)
  devDependencies : List (String × String)
  scripts : List (String × String)
  fetchedAt : Nat
deriving DecidableEq

/-- The relational store visible to `syncOrganizationRepos`. -/
structure DB where
  nextOrgId : Nat
  nextRepoId : Nat
  orgs : List OrgRow
  repos : List RepoRow
  pkgs : List PkgRow
deriving DecidableEq

/-- A repository descriptor as returned by the remote listing
(`octokit.repos.listForOrg`). -/
structure GithubRepo where
  id : Nat
  name : String
  full_name : String
  html_url : String
  default_branch : Option String
  description : Option String
  owner_login : String
deriving DecidableEq

/-- Parsed `package.json` content (the fields read by the sync code). -/
structure PackageJsonData where
  name : Option String
  version : Option String
  description : Option String
  author : Option String
  license : Option String
  dependencies : Option (List (String × String))
  devDependencies : Option (List (String × String))
  scripts : Option (List (String × String))
deriving DecidableEq

/-- Observable outcome of `getPackageJsonContent` followed by `JSON.parse`:
`ok` is status 200 with parseable content, `okUnparseable` is status 200 whose
content makes `JSON.parse` throw (the thrown error aborts and rolls back the
repository transaction), `notFound` is status 404, `err` any other status
(returned, not thrown, by `getPackageJsonContent`). -/
inductive FetchResult where
  | ok (content : PackageJsonData)
  | okUnparseable
  | notFound
  | err (status : Nat)
deriving DecidableEq

/-- Counters accumulated by `syncOrganizationRepos`. -/
structure Counters where
  successCount : Nat
  noPackageJsonCount : Nat
  errorCount : Nat
deriving DecidableEq

/-- The object returned by `syncOrganizationRepos` on its success path:
`{ success: true, message: 'Sync complete.', successCount, noPackageJsonCount,
errorCount }`. -/
structure SyncResult where
  success : Bool
  message : String
  successCount : Nat
  noPackageJsonCount : Nat
  errorCount : Nat
deriving DecidableEq

/-- `prisma.organization.upsert({ where: { name }, update: {}, create: { name } })`. -/
def upsertOrg (db : DB) (orgName : String) : DB × OrgRow :=
  match db.orgs.find? (fun o => o.name == orgName) with
  | some o => (db, o)
  | none =>
    let o : OrgRow := ⟨db.nextOrgId, orgName⟩
    ({ db with orgs := db.orgs ++ [o], nextOrgId := db.nextOrgId + 1 }, o)

/-- The `commonRepoData` update applied to an existing repository row: all
listed fields are overwritten (`lastFetchedAt := t`), `hasPackageJson` is not
part of the update data and is kept. -/
def repoUpdate (orgId t : Nat) (g : GithubRepo) (r : RepoRow) : RepoRow :=
  { r with
    organizationId := orgId
    name := g.name
    fullName := g.full_name
    url := g.html_url
    defaultBranch := g.default_branch.getD "main"
    description := g.description
    githubId := g.id
    lastFetchedAt := t }

/-- The `commonRepoData` create for a fresh repository row.  The create data
in `syncOrganizationRepos` does not mention `hasPackageJson`; the column is
initialized to `false` for a newly discovered repository (as the sibling
route `fetch-package-json/route.ts` does explicitly with
`has_package_json: false`). -/
def repoCreate (id orgId t : Nat) (g : GithubRepo) : RepoRow :=
  { id := id
    organizationId := orgId
    name := g.name
    fullName := g.full_name
    url := g.html_url
    defaultBranch := g.default_branch.getD "main"
    description := g.description
    githubId := g.id
    lastFetchedAt := t
    hasPackageJson := false }

/-- `tx.repository.upsert({ where: { githubId }, update: commonRepoData,
create: commonRepoData })`; returns the stored row. -/
def upsertRepo (db : DB) (orgId t : Nat) (g : GithubRepo) : DB × RepoRow :=
  match db.repos.find? (fun r => r.githubId == g.id) with
  | some r =>
    ({ db with repos := updateFirst (fun x => x.githubId == g.id) (repoUpdate orgId t g) db.repos },
     repoUpdate orgId t g r)
  | none =>
    let r := repoCreate db.nextRepoId orgId t g
    ({ db with repos := db.repos ++ [r], nextRepoId := db.nextRepoId + 1 }, r)

/-- The field values written by the `tx.packageJson.upsert` (both the update
and the create branch write the same fields; `dependencies || {}` etc. become
`getD []`). -/
def pkgFields (rid t : Nat) (p : PackageJsonData) : PkgRow :=
  { repositoryId := rid
    name := p.name
    version := p.version
    description := p.description
    author := p.author
    license := p.license
    dependencies := p.dependencies.getD []
    devDependencies := p.devDependencies.getD []
    scripts := p.scripts.getD []
    fetchedAt := t }

/-- `tx.packageJson.upsert({ where: { repositoryId }, update: ..., create: ... })`. -/
def upsertPkg (db : DB) (rid t : Nat) (p : PackageJsonData) : DB :=
  if db.pkgs.any (fun q => q.repositoryId == rid) then
    { db with pkgs := updateFirst (fun q => q.repositoryId == rid) (fun _ => pkgFields rid t p) db.pkgs }
  else
    { db with pkgs := db.pkgs ++ [pkgFields rid t p] }

/-- `tx.repository.update({ where: { id }, data: { hasPackageJson: b } })`. -/
def setHasPkg (db : DB) (rid : Nat) (b : Bool) : DB :=
  { db with repos := updateFirst (fun r => r.id == rid) (fun r => { r with hasPackageJson := b }) db.repos }

/-- `tx.packageJson.deleteMany({ where: { repositoryId } })`. -/
def deletePkgs (db : DB) (rid : Nat) : DB :=
  { db with pkgs := db.pkgs.filter (fun q => !(q.repositoryId == rid)) }

/-- One repository's unit of work inside `syncOrganizationRepos`: the
`prisma.$transaction` body plus the surrounding `catch`.  The environment
`env owner repo` gives the outcome of `getPackageJsonContent`.
On `ok`: manifest upsert, then `hasPackageJson := true`, `successCount++`.
On `okUnparseable`: `JSON.parse` throws, the transaction rolls back (database
unchanged) and the `catch` does `errorCount++`.
On `notFound` (404): delete manifest rows, `hasPackageJson := false`,
`noPackageJsonCount++`.
On `err` (any other status): the `else` branch only does `errorCount++`; the
transaction commits with the repository upsert already applied. -/
def processRepo (env : String → String → FetchResult) (orgId t : Nat)
    (g : GithubRepo) (db : DB) (c : Counters) : DB × Counters :=
  let res := upsertRepo db orgId t g
  let db1 := res.1
  let repo := res.2
  match env g.owner_login g.name with
  | .ok content =>
    let db2 := upsertPkg db1 repo.id t content
    let db3 := setHasPkg db2 repo.id true
    (db3, { c with successCount := c.successCount + 1 })
  | .okUnparseable =>
    (db, { c with errorCount := c.errorCount + 1 })
  | .notFound =>
    let db2 := deletePkgs db1 repo.id
    let db3 := setHasPkg db2 repo.id false
    (db3, { c with noPackageJsonCount := c.noPackageJsonCount + 1 })
  | .err _ =>
    (db1, { c with errorCount := c.errorCount + 1 })

/-- The fold of `processRepo` over the listed repositories (the linearization
of the batched `Promise.allSettled` loop; batching only inserts delays and
never reorders across batch boundaries). -/
def syncLoop (env : String → String → FetchResult) (orgId t : Nat) :
    List GithubRepo → DB → Counters → DB × Counters
  | [], db, c => (db, c)
  | g :: gs, db, c =>
    let step := processRepo env orgId t g db c
    syncLoop env orgId t gs step.1 step.2

/-- `syncOrganizationRepos(orgName)` on its success path: upsert the
organization, process every listed repository, return the final store and the
summary object. -/
def syncOrganizationRepos (env : String → String → FetchResult) (t : Nat)
    (orgName : String) (repoList : List GithubRepo) (db : DB) : DB × SyncResult :=
  let org := upsertOrg db orgName
  let res := syncLoop env org.2.id t repoList org.1 ⟨0, 0, 0⟩
  (res.1,
   { success := true
     message := "Sync complete."
     successCount := res.2.successCount
     noPackageJsonCount := res.2.noPackageJsonCount
     errorCount := res.2.errorCount })

/-- `BATCH_SIZE = 10` from `syncOrganizationRepos.js`. -/
def BATCH_SIZE : Nat := 10

/-- `DELAY_BETWEEN_BATCHES = 2000` (milliseconds) from `syncOrganizationRepos.js`. -/
def DELAY_BETWEEN_BATCHES : Nat := 2000

/-- The batch schedule produced by the loop
`for (i = 0; i < allRepos.length; i += BATCH_SIZE)`: each entry is one batch
(`allRepos.slice(i, i + BATCH_SIZE)`) paired with whether a pacing delay runs
after it (`i + BATCH_SIZE < allRepos.length`). -/
def batchPlan : List α → List (List α × Bool)
  | [] => []
  | a :: rest =>
    ((a :: rest).take BATCH_SIZE, decide (BATCH_SIZE < (a :: rest).length)) ::
      batchPlan ((a :: rest).drop BATCH_SIZE)
termination_by l => l.length
decreasing_by
  simp [BATCH_SIZE]
  omega

/-- A node of a repository directory listing as observed through
`octokit.repos.getContent`: a file, a directory whose own listing succeeded,
or a directory whose listing raised an error with the given status (the
recursive `findAllPackageJsons` call observes that error inside its own
`try`). -/
inductive Entry where
  | file (name path : String)
  | dirOk (name path : String) (entries : List Entry)
  | dirErr (name path : String) (status : Nat)

/-- `GitHubService.shouldSkipDirectory`: the fixed skip list plus any name
starting with a dot. -/
def shouldSkipDirectory (dirName : String) : Bool :=
  ["node_modules", ".git", ".github", "dist", "build", "coverage", "docs",
   ".vscode", ".idea", "test", "tests", "__tests__"].contains dirName
  || dirName.startsWith "."

/-- The `for (const item of contents)` loop of `findAllPackageJsons`: a
`package.json` file contributes its path; a non-skipped directory contributes
the recursive search of its listing.  A directory whose listing errors
contributes nothing: the recursive call catches the error in its own
`try`/`catch` (logging unless 404) and returns the paths it had accumulated,
namely none, so the loop continues with the remaining siblings. -/
def collectEntries : List Entry → List String
  | [] => []
  | .file name path :: es =>
    (if name == "package.json" then [path] else []) ++ collectEntries es
  | .dirOk name _ entries :: es =>
    (if shouldSkipDirectory name then [] else collectEntries entries) ++ collectEntries es
  | .dirErr _ _ _ :: es =>
    [] ++ collectEntries es

/-- `GitHubService.findAllPackageJsons(owner, repo, path)` as a function of
the observed listing of the root path: if the root `getContent` itself errors
(404 or otherwise), the `catch` swallows the error and the accumulated list —
still empty — is returned; otherwise the entries are traversed. -/
def findAllPackageJsons (rootListing : Except Nat (List Entry)) : List String :=
  match rootListing with
  | .error _ => []
  | .ok entries => collectEntries entries

/-- Dependency class tags used by `prepareDependenciesData`. -/
inductive DependencyType where
  | PRODUCTION
  | DEVELOPMENT
  | PEER
  | OPTIONAL
  | BUNDLED
deriving DecidableEq

/-- A `projectDependency` row. -/
structure DependencyRow where
  projectId : Nat
  packageName : String
  version : String
  dependencyType : DependencyType
deriving DecidableEq

/-- The dependency maps of a manifest as read by `prepareDependenciesData`
(each `pkg[key]` either absent or an object, modelled as an association
list). -/
structure PkgDepFields where
  dependencies : Option (List (String × String))
  devDependencies : Option (List (String × String))
  peerDependencies : Option (List (String × String))
  optionalDependencies : Option (List (String × String))
  bundledDependencies : Option (List (String × String))
  bundleDependencies : Option (List (String × String))
deriving DecidableEq

/-- The `depTypes` table of `prepareDependenciesData`, instantiated at a
manifest. -/
def depTypes (pkg : PkgDepFields) : List (Option (List (String × String)) × DependencyType) :=
  [(pkg.dependencies, .PRODUCTION),
   (pkg.devDependencies, .DEVELOPMENT),
   (pkg.peerDependencies, .PEER),
   (pkg.optionalDependencies, .OPTIONAL),
   (pkg.bundledDependencies, .BUNDLED),
   (pkg.bundleDependencies, .BUNDLED)]

/-- `PackageAnalyzerService.prepareDependenciesData`: for each dependency
class, push one row per `(name, version)` entry. -/
def prepareDependenciesData (projectId : Nat) (pkg : PkgDepFields) : List DependencyRow :=
  (depTypes pkg).foldr
    (fun mt acc =>
      (match mt.1 with
       | none => []
       | some entries =>
         entries.map (fun e => ⟨projectId, e.1, e.2, mt.2⟩)) ++ acc)
    []

/-- `PackageAnalyzerService.saveDependencies`: delete every row of the parent
project (`deleteMany({ where: { projectId } })`), then bulk-insert the fresh
set (`createMany`), over the `projectDependency` table modelled as a row
list. -/
def saveDependencies (rows : List DependencyRow) (projectId : Nat) (pkg : PkgDepFields) : List DependencyRow :=
  rows.filter (fun r => !(r.projectId == projectId)) ++ prepareDependenciesData projectId pkg

/-- Whitespace test used by the person-string trimming. -/
def isSpaceChar (ch : Char) : Bool :=
  ch == ' ' || ch == '\t' || ch == '\n' || ch == '\r'

/-- Drop leading and trailing whitespace from a character list. -/
def trimChars (s : List Char) : List Char :=
  ((s.dropWhile isSpaceChar).reverse.dropWhile isSpaceChar).reverse

/-- Split a character list at the first occurrence of `c`: returns the part
before and the part after, or `none` when `c` does not occur. -/
def breakAt (c : Char) : List Char → Option (List Char × List Char)
  | [] => none
  | x :: xs =>
    if x == c then some ([], xs)
    else (breakAt c xs).map (fun pr => (x :: pr.1, pr.2))

/-- Extract the first `o ... c` span from a character list: returns the span
content and the list with the span removed; when no complete span exists the
list is returned unchanged. -/
def extractSpan (o c : Char) (s : List Char) : Option (List Char) × List Char :=
  match breakAt o s with
  | none => (none, s)
  | some pr =>
    match breakAt c pr.2 with
    | none => (none, s)
    | some inner => (some inner.1, pr.1 ++ inner.2)

/-- A normalized person record `(name, email, url)`. -/
structure Person where
  name : Option String
  email : Option String
  url : Option String
deriving DecidableEq

/-- Modelled from the spec: `parsePersonString` is called by
`PackageAnalyzerService.preparePeopleData` but its definition is missing from
the repository sources.  The spec (section 4.2) describes it: a tolerant
parser that "extracts email from the first `<...>` span and URL from the
first `(...)` span, remaining text trimmed to name; if no name resolves, the
person record is dropped silently". -/
def parsePersonString (s : String) : Person :=
  let cs := s.toList
  let emailSplit := extractSpan '<' '>' cs
  let urlSplit := extractSpan '(' ')' emailSplit.2
  let nm := trimChars urlSplit.2
  { name := if nm.isEmpty then none else some nm.asString
    email := emailSplit.1.map List.asString
    url := urlSplit.1.map List.asString }

/-- Role tag of a `projectPerson` row. -/
inductive PersonRole where
  | AUTHOR
  | CONTRIBUTOR
  | MAINTAINER
deriving DecidableEq

/-- A `projectPerson` row as pushed by `preparePeopleData` (pushed only when
the parsed name resolved). -/
structure PersonRow where
  projectId : Nat
  name : String
  email : Option String
  url : Option String
  role : PersonRole
deriving DecidableEq

/-- The person-bearing fields of a manifest as read by `preparePeopleData`
(free-text entries; the structured-object alternative goes through the same
parser per the spec's tolerant-parser contract). -/
structure PkgPeopleFields where
  author : Option String
  contributors : Option (List String)
  maintainers : Option (List String)
deriving DecidableEq

/-- Build the row for one parsed person with the given role, or none when no
name resolved (`if (person.name) { people.push(...) }`). -/
def personRowOf (projectId : Nat) (role : PersonRole) (s : String) : List PersonRow :=
  let person := parsePersonString s
  match person.name with
  | none => []
  | some n => [⟨projectId, n, person.email, person.url, role⟩]

/-- `PackageAnalyzerService.preparePeopleData`: the author (if present), then
each contributor, then each maintainer; entries whose parse yields no name
are dropped silently. -/
def preparePeopleData (projectId : Nat) (pkg : PkgPeopleFields) : List PersonRow :=
  (match pkg.author with
   | none => []
   | some a => personRowOf projectId .AUTHOR a)
  ++ (match pkg.contributors with
      | none => []
      | some cs => cs.foldr (fun s acc => personRowOf projectId .CONTRIBUTOR s ++ acc) [])
  ++ (match pkg.maintainers with
      | none => []
      | some ms => ms.foldr (fun s acc => personRowOf projectId .MAINTAINER s ++ acc) [])


lemma batchPlan_nil : batchPlan (α := α) [] = [] := by
  rw [batchPlan]

lemma batchPlan_eq_nil_iff (l : List α) : batchPlan l = [] ↔ l = [] := by
  cases l with
  | nil => simp [batchPlan_nil]
  | cons a rest => rw [batchPlan]; simp

lemma batchPlan_step (l : List α) (hlt : BATCH_SIZE < l.length) :
    batchPlan l = (l.take BATCH_SIZE, true) :: batchPlan (l.drop BATCH_SIZE) := by
  cases l with
  | nil => simp at hlt
  | cons a rest =>
    rw [batchPlan]
    simp only [List.length_cons] at hlt
    simp [hlt]

lemma batchPlan_last (l : List α) (hne : l ≠ []) (hle : l.length ≤ BATCH_SIZE) :
    batchPlan l = [(l, false)] := by
  cases l with
  | nil => exact absurd rfl hne
  | cons a rest =>
    rw [batchPlan]
    have h1 : (a :: rest).take BATCH_SIZE = a :: rest := List.take_of_length_le hle
    have h2 : (a :: rest).drop BATCH_SIZE = [] := List.drop_eq_nil_iff.mpr hle
    simp only [List.length_cons] at hle
    simp [h1, h2, batchPlan_nil, hle]

lemma batchPlan_flatten (l : List α) : ((batchPlan l).map Prod.fst).flatten = l := by
  induction l using batchPlan.induct with
  | case1 => simp [batchPlan_nil]
  | case2 a rest ih =>
    rw [batchPlan]
    simp only [List.map_cons, List.flatten_cons, ih]
    exact List.take_append_drop _ _

lemma batchPlan_sizes (l : List α) : ∀ p ∈ batchPlan l, p.1 ≠ [] ∧ p.1.length ≤ BATCH_SIZE := by
  induction l using batchPlan.induct with
  | case1 => simp [batchPlan_nil]
  | case2 a rest ih =>
    rw [batchPlan]
    intro p hp
    rcases List.mem_cons.mp hp with h | h
    · subst h
      refine ⟨?_, ?_⟩
      · simp [BATCH_SIZE, List.take]
      · exact List.length_take_le BATCH_SIZE (a :: rest)
    · exact ih p h

lemma batchPlan_flags (l : List α) : ∀ (pre : List (List α × Bool)) (p : List α × Bool)
    (post : List (List α × Bool)), batchPlan l = pre ++ p :: post → (p.2 = true ↔ post ≠ []) := by
  induction l using batchPlan.induct with
  | case1 =>
    intro pre p post hsplit
    rw [batchPlan_nil] at hsplit
    exact absurd hsplit.symm (List.append_ne_nil_of_right_ne_nil pre (List.cons_ne_nil p post))
  | case2 a rest ih =>
    intro pre p post hsplit
    rw [batchPlan] at hsplit
    cases pre with
    | nil =>
      simp only [List.nil_append, List.cons.injEq] at hsplit
      obtain ⟨hp, hpost⟩ := hsplit
      subst hpost
      rw [← hp]
      simp only [decide_eq_true_eq, Ne, batchPlan_eq_nil_iff, List.drop_eq_nil_iff,
        List.length_cons, Nat.not_le]
    | cons q pre2 =>
      simp only [List.cons_append, List.cons.injEq] at hsplit
      exact ih pre2 p post hsplit.2

lemma batchPlan_15 (l : List α) (h : l.length = 15) :
    batchPlan l = [(l.take 10, true), (l.drop 10, false)] := by
  have hstep := batchPlan_step l (by rw [h]; decide)
  have hne : l.drop BATCH_SIZE ≠ [] := by
    rw [Ne, List.drop_eq_nil_iff, h]; decide
  have hlast := batchPlan_last (l.drop BATCH_SIZE) hne
    (by rw [List.length_drop, h]; decide)
  rw [hstep, hlast]
  rfl

/-- C5: `syncOrganization` partitions the listed repositories into
fixed-size batches of `BATCH_SIZE = 10` in order (their concatenation is the
original order and every batch is nonempty with at most 10 members), the
fixed `DELAY_BETWEEN_BATCHES = 2000` ms pause runs after a batch exactly when
it is not the last one, and a 15-repository listing yields exactly the two
batches `take 10` and `drop 10` with one inter-batch delay.  Batches are
processed strictly in sequence by the loop; the repositories of one batch
share a single schedule slot (one `Promise.allSettled` of the whole batch). -/
theorem C5_batch_schedule (l : List Nat) :
    BATCH_SIZE = 10 ∧ DELAY_BETWEEN_BATCHES = 2000
    ∧ ((batchPlan l).map Prod.fst).flatten = l
    ∧ (∀ p ∈ batchPlan l, p.1 ≠ [] ∧ p.1.length ≤ BATCH_SIZE)
    ∧ (∀ (pre : List (List Nat × Bool)) (p : List Nat × Bool) (post : List (List Nat × Bool)),
        batchPlan l = pre ++ p :: post → (p.2 = true ↔ post ≠ []))
    ∧ (l.length = 15 → batchPlan l = [(l.take 10, true), (l.drop 10, false)]) :=
  ⟨rfl, rfl, batchPlan_flatten l, batchPlan_sizes l, batchPlan_flags l, batchPlan_15 l⟩

/-- Witness for C5 at a concrete 15-repository listing. -/
theorem C5_batch_schedule_witness :
    batchPlan [0, 1, 2, 3, 4, 5, 6, 7, 8, 9, 10, 11, 12, 13, 14] =
      [([0, 1, 2, 3, 4, 5, 6, 7, 8, 9], true), ([10, 11, 12, 13, 14], false)] :=
  (C5_batch_schedule [0, 1, 2, 3, 4, 5, 6, 7, 8, 9, 10, 11, 12, 13, 14]).2.2.2.2.2 rfl

/-- Fetch outcomes counted by `successCount`. -/
def isFetchSuccess : FetchResult → Bool
  | .ok _ => true
  | .okUnparseable => false
  | .notFound => false
  | .err _ => false

/-- Fetch outcomes counted by `noPackageJsonCount`. -/
def isFetchNotFound : FetchResult → Bool
  | .ok _ => false
  | .okUnparseable => false
  | .notFound => true
  | .err _ => false

/-- Fetch outcomes counted by `errorCount` (non-200/404 statuses and thrown
parse errors). -/
def isFetchError : FetchResult → Bool
  | .ok _ => false
  | .okUnparseable => true
  | .notFound => false
  | .err _ => true

lemma isFetchSuccess_ok (c : PackageJsonData) : isFetchSuccess (.ok c) = true := rfl

lemma isFetchSuccess_okUnparseable : isFetchSuccess .okUnparseable = false := rfl

lemma isFetchSuccess_notFound : isFetchSuccess .notFound = false := rfl

lemma isFetchSuccess_err (st : Nat) : isFetchSuccess (.err st) = false := rfl

lemma isFetchNotFound_ok (c : PackageJsonData) : isFetchNotFound (.ok c) = false := rfl

lemma isFetchNotFound_okUnparseable : isFetchNotFound .okUnparseable = false := rfl

lemma isFetchNotFound_notFound : isFetchNotFound .notFound = true := rfl

lemma isFetchNotFound_err (st : Nat) : isFetchNotFound (.err st) = false := rfl

lemma isFetchError_ok (c : PackageJsonData) : isFetchError (.ok c) = false := rfl

lemma isFetchError_okUnparseable : isFetchError .okUnparseable = true := rfl

lemma isFetchError_notFound : isFetchError .notFound = false := rfl

lemma isFetchError_err (st : Nat) : isFetchError (.err st) = true := rfl

lemma processRepo_snd (env : String → String → FetchResult) (orgId t : Nat)
    (g : GithubRepo) (db : DB) (c : Counters) :
    (processRepo env orgId t g db c).2 =
      ⟨c.successCount + (if isFetchSuccess (env g.owner_login g.name) then 1 else 0),
       c.noPackageJsonCount + (if isFetchNotFound (env g.owner_login g.name) then 1 else 0),
       c.errorCount + (if isFetchError (env g.owner_login g.name) then 1 else 0)⟩ := by
  cases h : env g.owner_login g.name <;>
    simp [processRepo, h, isFetchSuccess, isFetchNotFound, isFetchError]

lemma syncLoop_counters (env : String → String → FetchResult) (orgId t : Nat) :
    ∀ (L : List GithubRepo) (db : DB) (c : Counters),
    (syncLoop env orgId t L db c).2 =
      ⟨c.successCount + L.countP (fun g => isFetchSuccess (env g.owner_login g.name)),
       c.noPackageJsonCount + L.countP (fun g => isFetchNotFound (env g.owner_login g.name)),
       c.errorCount + L.countP (fun g => isFetchError (env g.owner_login g.name))⟩ := by
  intro L
  induction L with
  | nil => intro db c; simp [syncLoop]
  | cons g gs ih =>
    intro db c
    rw [syncLoop, ih, processRepo_snd]
    simp only [List.countP_cons, Counters.mk.injEq]
    refine ⟨by omega, by omega, by omega⟩

lemma countP_fetch_partition (env : String → String → FetchResult) (L : List GithubRepo) :
    L.countP (fun g => isFetchSuccess (env g.owner_login g.name))
    + L.countP (fun g => isFetchNotFound (env g.owner_login g.name))
    + L.countP (fun g => isFetchError (env g.owner_login g.name)) = L.length := by
  induction L with
  | nil => rfl
  | cons g gs ih =>
    simp only [List.countP_cons, List.length_cons]
    cases h : env g.owner_login g.name <;>
      simp [h, isFetchSuccess_ok, isFetchSuccess_okUnparseable, isFetchSuccess_notFound,
        isFetchSuccess_err, isFetchNotFound_ok, isFetchNotFound_okUnparseable,
        isFetchNotFound_notFound, isFetchNotFound_err, isFetchError_ok,
        isFetchError_okUnparseable, isFetchError_notFound, isFetchError_err] <;>
      omega

/-- C9: every listed repository's unit of work bumps exactly one of the three
counters, so a run of `syncOrganizationRepos` that reaches its success return
satisfies `successCount + noPackageJsonCount + errorCount = n` for `n` listed
repositories. -/
theorem C9_counters_partition (env : String → String → FetchResult) (t : Nat)
    (orgName : String) (L : List GithubRepo) (db : DB) :
    (syncOrganizationRepos env t orgName L db).2.successCount
    + (syncOrganizationRepos env t orgName L db).2.noPackageJsonCount
    + (syncOrganizationRepos env t orgName L db).2.errorCount = L.length := by
  simp only [syncOrganizationRepos, syncLoop_counters]
  simpa using countP_fetch_partition env L

/-- C1 (amended): every per-repository error is caught at the engine boundary
and counted in `errorCount` (`errorCount` equals the number of repositories
whose fetch errored or whose content failed to parse), and the run still
completes its success return (`success = true`) — sibling work is not
aborted.  However the returned summary carries only the numeric counters; it
has no `errors[]` field (see the counterexample). -/
theorem C1_errors_counted_without_list (env : String → String → FetchResult) (t : Nat)
    (orgName : String) (L : List GithubRepo) (db : DB) :
    (syncOrganizationRepos env t orgName L db).2.errorCount
      = L.countP (fun g => isFetchError (env g.owner_login g.name))
    ∧ (syncOrganizationRepos env t orgName L db).2.success = true
    ∧ (syncOrganizationRepos env t orgName L db).2.message = "Sync complete." := by
  refine ⟨?_, rfl, rfl⟩
  simp [syncOrganizationRepos, syncLoop_counters]

/-- The empty store. -/
def dbEmpty : DB := ⟨0, 0, [], [], []⟩

/-- An environment in which every manifest fetch fails with status 500. -/
def envFail : String → String → FetchResult := fun _ _ => .err 500

/-- First concrete repository descriptor. -/
def gAlpha : GithubRepo :=
  ⟨7, "alpha", "acme/alpha", "https://example.com/alpha", some "main", none, "acme"⟩

/-- Second concrete repository descriptor, distinct from `gAlpha`. -/
def gBeta : GithubRepo :=
  ⟨8, "beta", "acme/beta", "https://example.com/beta", some "main", none, "acme"⟩

/-- C1 (counterexample): syncing an organization whose single repository
`gAlpha` fails yields the very same summary object as syncing one whose
single (different) repository `gBeta` fails, and that summary is exactly the
five-field record of the source's return statement — only counters, no
`errors[]` entry identifying the failed repository exists in the returned
value. -/
theorem C1_counterexample :
    (syncOrganizationRepos envFail 3 "acme" [gAlpha] dbEmpty).2
      = (syncOrganizationRepos envFail 3 "acme" [gBeta] dbEmpty).2
    ∧ (syncOrganizationRepos envFail 3 "acme" [gAlpha] dbEmpty).2
      = { success := true, message := "Sync complete.", successCount := 0,
          noPackageJsonCount := 0, errorCount := 1 }
    ∧ gAlpha ≠ gBeta := by
  refine ⟨rfl, rfl, by decide⟩

lemma collectEntries_append (a b : List Entry) :
    collectEntries (a ++ b) = collectEntries a ++ collectEntries b := by
  induction a with
  | nil => simp [collectEntries]
  | cons e es ih =>
    cases e <;> simp [collectEntries, ih, List.append_assoc]

/-- C10: `findAllPackageJsons` never propagates an error.  When listing the
root path itself errors (404 or any other status), the `catch` swallows the
error and the paths accumulated so far — none — are returned; when one
directory's listing errors anywhere in the walk, that subtree contributes
nothing and the manifests of the sibling entries before and after it are
still all returned (a partial result rather than a failure). -/
theorem C10_find_all_swallows_errors :
    (∀ st : Nat, findAllPackageJsons (Except.error st) = [])
    ∧ (∀ (name path : String) (st : Nat) (pre post : List Entry),
        collectEntries (pre ++ Entry.dirErr name path st :: post)
          = collectEntries pre ++ collectEntries post)
    ∧ (∀ entries : List Entry, findAllPackageJsons (Except.ok entries) = collectEntries entries) := by
  refine ⟨fun _ => rfl, ?_, fun _ => rfl⟩
  intro name path st pre post
  rw [collectEntries_append]
  simp [collectEntries]

lemma prepareDependenciesData_projectId (pid : Nat) (pkg : PkgDepFields) :
    ∀ r ∈ prepareDependenciesData pid pkg, r.projectId = pid := by
  have key : ∀ (l : List (Option (List (String × String)) × DependencyType)),
      ∀ r ∈ l.foldr (fun mt acc =>
        (match mt.1 with
         | none => []
         | some entries => entries.map (fun e => (⟨pid, e.1, e.2, mt.2⟩ : DependencyRow))) ++ acc) [],
      r.projectId = pid := by
    intro l
    induction l with
    | nil => simp
    | cons mt rest ih =>
      intro r hr
      rcases List.mem_append.mp hr with h | h
      · cases hmt : mt.1 with
        | none => rw [hmt] at h; simp at h
        | some entries =>
          rw [hmt] at h
          obtain ⟨e, _, rfl⟩ := List.mem_map.mp h
          rfl
      · exact ih r h
  exact key (depTypes pkg)

/-- C7: `saveDependencies` deletes every dependency row of the parent project
and bulk-inserts exactly the set derived from the new manifest: afterwards
the rows of that project are exactly `prepareDependenciesData`, rows of every
other project are untouched, and a package name absent from the new manifest
has no row for that project (replace, never merge). -/
theorem C7_replace_not_merge (rows : List DependencyRow) (pid : Nat) (pkg : PkgDepFields) :
    (saveDependencies rows pid pkg).filter (fun r => r.projectId == pid)
      = prepareDependenciesData pid pkg
    ∧ (saveDependencies rows pid pkg).filter (fun r => !(r.projectId == pid))
      = rows.filter (fun r => !(r.projectId == pid))
    ∧ (∀ n, n ∉ (prepareDependenciesData pid pkg).map DependencyRow.packageName →
        ∀ r ∈ saveDependencies rows pid pkg, r.projectId = pid → r.packageName ≠ n) := by
  have hall : ∀ r ∈ prepareDependenciesData pid pkg, (fun r => r.projectId == pid) r = true := by
    intro r hr
    simpa using prepareDependenciesData_projectId pid pkg r hr
  refine ⟨?_, ?_, ?_⟩
  · rw [saveDependencies, List.filter_append, List.filter_filter]
    rw [List.filter_eq_self.mpr hall]
    have : ∀ r : DependencyRow, ((r.projectId == pid) && !(r.projectId == pid)) = false := by
      intro r; cases h : r.projectId == pid <;> simp [h]
    simp [this]
  · rw [saveDependencies, List.filter_append]
    have h2 : (prepareDependenciesData pid pkg).filter (fun r => !(r.projectId == pid)) = [] := by
      rw [List.filter_eq_nil_iff]
      intro r hr
      simp [prepareDependenciesData_projectId pid pkg r hr]
    rw [h2, List.filter_filter]
    simp
  · intro n hn r hr hpid hcontra
    apply hn
    rw [← hcontra]
    apply List.mem_map_of_mem
    rcases List.mem_append.mp hr with h | h
    · have := List.of_mem_filter h
      simp [hpid] at this
    · exact h

/-- Witness for C7: a concrete store where project 1 previously depended on
`"lodash"`, re-analysed against a manifest that dropped it. -/
theorem C7_replace_not_merge_witness :
    (saveDependencies [⟨1, "lodash", "4.0.0", .PRODUCTION⟩, ⟨2, "react", "18.0.0", .PRODUCTION⟩] 1
        ⟨some [("express", "5.0.0")], none, none, none, none, none⟩).filter
        (fun r => r.projectId == 1)
      = prepareDependenciesData 1 ⟨some [("express", "5.0.0")], none, none, none, none, none⟩
    ∧ ∀ r ∈ saveDependencies [⟨1, "lodash", "4.0.0", .PRODUCTION⟩, ⟨2, "react", "18.0.0", .PRODUCTION⟩] 1
        ⟨some [("express", "5.0.0")], none, none, none, none, none⟩,
        r.projectId = 1 → r.packageName ≠ "lodash" := by
  have h := C7_replace_not_merge
    [⟨1, "lodash", "4.0.0", .PRODUCTION⟩, ⟨2, "react", "18.0.0", .PRODUCTION⟩] 1
    ⟨some [("express", "5.0.0")], none, none, none, none, none⟩
  exact ⟨h.1, h.2.2 "lodash" (by decide)⟩

/-- C6: person normalization parses the free-text string
`"Jane Doe <jane@x.com> (https://x.com)"` into exactly
`{name: "Jane Doe", email: "jane@x.com", url: "https://x.com"}`, and every
input from which no name resolves produces no person row and no error —
`preparePeopleData` silently drops it. -/
theorem C6_person_parsing :
    parsePersonString "Jane Doe <jane@x.com> (https://x.com)"
      = { name := some "Jane Doe", email := some "jane@x.com", url := some "https://x.com" }
    ∧ ∀ (pid : Nat) (s : String), (parsePersonString s).name = none →
        preparePeopleData pid ⟨some s, none, none⟩ = [] := by
  constructor
  · decide
  · intro pid s h
    simp [preparePeopleData, personRowOf, h]

/-- Witness for C6 at a concrete nameless input. -/
theorem C6_person_parsing_witness :
    preparePeopleData 0 ⟨some "<jane@x.com>", none, none⟩ = [] :=
  C6_person_parsing.2 0 "<jane@x.com>" (by decide)

/-- The timestamp-free view of a repository row: every column except
`lastFetchedAt` ("same field values except refreshed timestamps"). -/
structure RepoStable where
  id : Nat
  organizationId : Nat
  name : String
  fullName : String
  url : String
  defaultBranch : String
  description : Option String
  githubId : Nat
  hasPackageJson : Bool
deriving DecidableEq

/-- Project a repository row to its timestamp-free view. -/
def RepoRow.toStable (r : RepoRow) : RepoStable :=
  ⟨r.id, r.organizationId, r.name, r.fullName, r.url, r.defaultBranch,
   r.description, r.githubId, r.hasPackageJson⟩

/-- The timestamp-free view of a manifest row: every column except
`fetchedAt`. -/
structure PkgStable where
  repositoryId : Nat
  name : Option String
  version : Option String
  description : Option String
  author : Option String
  license : Option String
  dependencies : List (String × String)
  devDependencies : List (String × String)
  scripts : List (String × String)
deriving DecidableEq

/-- Project a manifest row to its timestamp-free view. -/
def PkgRow.toStable (p : PkgRow) : PkgStable :=
  ⟨p.repositoryId, p.name, p.version, p.description, p.author, p.license,
   p.dependencies, p.devDependencies, p.scripts⟩

/-- The timestamp-free view of the whole store. -/
structure DBStable where
  nextOrgId : Nat
  nextRepoId : Nat
  orgs : List OrgRow
  repos : List RepoStable
  pkgs : List PkgStable
deriving DecidableEq

/-- Project the store to its timestamp-free view. -/
def DB.stable (db : DB) : DBStable :=
  ⟨db.nextOrgId, db.nextRepoId, db.orgs, db.repos.map RepoRow.toStable,
   db.pkgs.map PkgRow.toStable⟩

/-- The timestamp-free view of `commonRepoData` for a repository row with
internal id `rid` and manifest flag `flag`. -/
def commonStable (orgId : Nat) (g : GithubRepo) (rid : Nat) (flag : Bool) : RepoStable :=
  ⟨rid, orgId, g.name, g.full_name, g.html_url, g.default_branch.getD "main",
   g.description, g.id, flag⟩

/-- The timestamp-free view of the manifest row written for content `p`. -/
def pkgStableOf (rid : Nat) (p : PackageJsonData) : PkgStable :=
  ⟨rid, p.name, p.version, p.description, p.author, p.license,
   p.dependencies.getD [], p.devDependencies.getD [], p.scripts.getD []⟩

/-- Well-formedness of the timestamp-free store: internal repository ids are
unique, remote github ids are unique, ids stay below the id counter, manifest
rows are keyed uniquely by `repositoryId` (the Prisma unique constraint), and
every manifest row references an existing repository (the foreign key). -/
def WFS (s : DBStable) : Prop :=
  (s.repos.map RepoStable.id).Nodup
  ∧ (s.repos.map RepoStable.githubId).Nodup
  ∧ (∀ r ∈ s.repos, r.id < s.nextRepoId)
  ∧ (s.pkgs.map PkgStable.repositoryId).Nodup
  ∧ (∀ q ∈ s.pkgs, ∃ r, r ∈ s.repos ∧ r.id = q.repositoryId)

/-- Well-formedness of a store. -/
def WF (db : DB) : Prop := WFS db.stable

instance (s : DBStable) : Decidable (WFS s) := by
  unfold WFS
  infer_instance

instance (db : DB) : Decidable (WF db) := by
  unfold WF
  infer_instance

/-- The `has_manifest` invariant: a repository row's `hasPackageJson` flag is
true exactly when a manifest row currently exists for it. -/
def InvDB (db : DB) : Prop :=
  ∀ r ∈ db.repos, (r.hasPackageJson = true ↔ ∃ q, q ∈ db.pkgs ∧ q.repositoryId = r.id)

instance (db : DB) : Decidable (InvDB db) := by
  unfold InvDB
  infer_instance

lemma find?_decomp {p : α → Bool} {l : List α} {a : α} (h : l.find? p = some a) :
    ∃ l₁ l₂, l = l₁ ++ a :: l₂ ∧ ∀ x ∈ l₁, p x = false := by
  induction l with
  | nil => simp [List.find?] at h
  | cons y ys ih =>
    rw [List.find?] at h
    cases hy : p y with
    | true =>
      rw [hy] at h
      simp only [Option.some.injEq] at h
      exact ⟨[], ys, by simp [h], by simp⟩
    | false =>
      rw [hy] at h
      obtain ⟨l₁, l₂, rfl, hl₁⟩ := ih h
      refine ⟨y :: l₁, l₂, rfl, ?_⟩
      intro x hx
      rcases List.mem_cons.mp hx with rfl | hx
      · exact hy
      · exact hl₁ x hx

lemma updateFirst_append_of_not {p : α → Bool} {l₁ : List α}
    (h : ∀ x ∈ l₁, p x = false) {a : α} (ha : p a = true) (f : α → α) (l₂ : List α) :
    updateFirst p f (l₁ ++ a :: l₂) = l₁ ++ f a :: l₂ := by
  induction l₁ with
  | nil => simp [updateFirst, ha]
  | cons y ys ih =>
    have hy := h y (List.mem_cons_self y ys)
    rw [List.cons_append, updateFirst, if_neg (by simp [hy]),
      ih (fun x hx => h x (List.mem_cons_of_mem y hx)), List.cons_append]

lemma find?_append_cons_of_not {p : α → Bool} {l₁ : List α}
    (h : ∀ x ∈ l₁, p x = false) {a : α} (ha : p a = true) (l₂ : List α) :
    (l₁ ++ a :: l₂).find? p = some a := by
  induction l₁ with
  | nil => simp [List.find?, ha]
  | cons y ys ih =>
    have hy := h y (List.mem_cons_self y ys)
    simp only [List.cons_append, List.find?, hy]
    exact ih fun x hx => h x (List.mem_cons_of_mem y hx)

lemma find?_middle_congr {p : α → Bool} {a b : α} (ha : p a = false) (hb : p b = false)
    (l₁ l₂ : List α) :
    (l₁ ++ a :: l₂).find? p = (l₁ ++ b :: l₂).find? p := by
  rw [List.find?_append, List.find?_append]
  congr 1
  rw [List.find?, List.find?, ha, hb]

lemma find?_filter_keep {p keep : α → Bool} (h : ∀ x, p x = true → keep x = true)
    (l : List α) : (l.filter keep).find? p = l.find? p := by
  induction l with
  | nil => rfl
  | cons y ys ih =>
    by_cases hy : p y = true
    · rw [List.filter_cons, h y hy]
      simp only [if_true, List.find?, hy, ih]
    · have hy' : p y = false := by revert hy; cases p y <;> simp
      rw [List.filter_cons]
      cases hk : keep y with
      | true => simp only [if_true, List.find?, hy', ih]
      | false => simp only [Bool.false_eq_true, if_false, ih, List.find?, hy']

lemma map_updateFirst {p : α → Bool} {g : α → α} {f : α → β}
    (h : ∀ x, f (g x) = f x) (l : List α) :
    (updateFirst p g l).map f = l.map f := by
  induction l with
  | nil => rfl
  | cons y ys ih =>
    rw [updateFirst]
    by_cases hy : p y = true
    · simp [hy, h y]
    · rw [if_neg hy, List.map_cons, List.map_cons, ih]

lemma find?_updateFirst_matching {p : α → Bool} {g : α → α}
    (hpres : ∀ x, p x = true → p (g x) = true) (l : List α) :
    (updateFirst p g l).find? p = (l.find? p).map g := by
  induction l with
  | nil => rfl
  | cons y ys ih =>
    rw [updateFirst]
    by_cases hy : p y = true
    · simp [List.find?, hy, hpres y hy]
    · have hy' : p y = false := by revert hy; cases p y <;> simp
      simp only [hy, if_false, List.find?, hy', ih]

lemma exists_find?_eq_some {p : α → Bool} {l : List α} {a : α}
    (hmem : a ∈ l) (ha : p a = true) : ∃ b, l.find? p = some b := by
  induction l with
  | nil => simp at hmem
  | cons y ys ih =>
    rw [List.find?]
    cases hy : p y with
    | true => exact ⟨y, rfl⟩
    | false =>
      rcases List.mem_cons.mp hmem with rfl | hmem'
      · rw [hy] at ha; exact absurd ha (by simp)
      · exact ih hmem'

lemma mem_updateFirst {p : α → Bool} {g : α → α} {l : List α} {x : α}
    (hx : x ∈ updateFirst p g l) : x ∈ l ∨ ∃ y, y ∈ l ∧ p y = true ∧ x = g y := by
  induction l with
  | nil => simp [updateFirst] at hx
  | cons y ys ih =>
    rw [updateFirst] at hx
    by_cases hy : p y = true
    · rw [if_pos hy] at hx
      rcases List.mem_cons.mp hx with rfl | hx'
      · exact Or.inr ⟨y, List.mem_cons_self y ys, hy, rfl⟩
      · exact Or.inl (List.mem_cons_of_mem y hx')
    · rw [if_neg hy] at hx
      rcases List.mem_cons.mp hx with rfl | hx'
      · exact Or.inl (List.mem_cons_self x ys)
      · rcases ih hx' with h | ⟨z, hz, hpz, rfl⟩
        · exact Or.inl (List.mem_cons_of_mem y h)
        · exact Or.inr ⟨z, List.mem_cons_of_mem y hz, hpz, rfl⟩

lemma find?_map_general {f : α → β} {p : α → Bool} {q : β → Bool}
    (hpq : ∀ a, p a = q (f a)) (l : List α) :
    (l.map f).find? q = (l.find? p).map f := by
  induction l with
  | nil => rfl
  | cons y ys ih =>
    rw [List.map_cons, List.find?, List.find?, ← hpq y]
    cases hy : p y with
    | true => rfl
    | false => exact ih

lemma stable_repos (db : DB) : db.stable.repos = db.repos.map RepoRow.toStable := rfl

lemma stable_pkgs (db : DB) : db.stable.pkgs = db.pkgs.map PkgRow.toStable := rfl

lemma stable_repo_ids (db : DB) :
    db.stable.repos.map RepoStable.id = db.repos.map (fun r => r.id) := by
  rw [stable_repos, List.map_map]
  rfl

lemma stable_repo_ghIds (db : DB) :
    db.stable.repos.map RepoStable.githubId = db.repos.map (fun r => r.githubId) := by
  rw [stable_repos, List.map_map]
  rfl

lemma stable_pkg_repoIds (db : DB) :
    db.stable.pkgs.map PkgStable.repositoryId = db.pkgs.map (fun q => q.repositoryId) := by
  rw [stable_pkgs, List.map_map]
  rfl

lemma WF_iff (db : DB) : WF db ↔
    (db.repos.map (fun r => r.id)).Nodup
    ∧ (db.repos.map (fun r => r.githubId)).Nodup
    ∧ (∀ r ∈ db.repos, r.id < db.nextRepoId)
    ∧ (db.pkgs.map (fun q => q.repositoryId)).Nodup
    ∧ (∀ q ∈ db.pkgs, ∃ r, r ∈ db.repos ∧ r.id = q.repositoryId) := by
  unfold WF WFS
  rw [stable_repo_ids, stable_repo_ghIds, stable_pkg_repoIds]
  refine and_congr Iff.rfl (and_congr Iff.rfl (and_congr ?_ (and_congr Iff.rfl ?_)))
  · rw [stable_repos]
    exact List.forall_mem_map
  · rw [stable_pkgs, List.forall_mem_map]
    constructor
    · intro h q hq
      obtain ⟨rS, hrS, hid⟩ := h q hq
      rw [stable_repos] at hrS
      obtain ⟨x, hx, hxe⟩ := List.mem_map.mp hrS
      refine ⟨x, hx, ?_⟩
      rw [← hxe] at hid
      exact hid
    · intro h q hq
      obtain ⟨x, hx, hid⟩ := h q hq
      exact ⟨x.toStable, by rw [stable_repos]; exact List.mem_map_of_mem _ hx, hid⟩

lemma upsertRepo_found {db : DB} {orgId t : Nat} {g : GithubRepo} {r : RepoRow}
    (hf : db.repos.find? (fun x => x.githubId == g.id) = some r) :
    upsertRepo db orgId t g
      = ({ db with repos := updateFirst (fun x => x.githubId == g.id) (repoUpdate orgId t g) db.repos },
         repoUpdate orgId t g r) := by
  unfold upsertRepo
  rw [hf]

lemma upsertRepo_none {db : DB} {orgId t : Nat} {g : GithubRepo}
    (hf : db.repos.find? (fun x => x.githubId == g.id) = none) :
    upsertRepo db orgId t g
      = ({ db with
            repos := db.repos ++ [repoCreate db.nextRepoId orgId t g]
            nextRepoId := db.nextRepoId + 1 },
         repoCreate db.nextRepoId orgId t g) := by
  unfold upsertRepo
  rw [hf]

lemma upsertRepo_frame (db : DB) (orgId t : Nat) (g : GithubRepo) :
    (upsertRepo db orgId t g).1.pkgs = db.pkgs
    ∧ (upsertRepo db orgId t g).1.orgs = db.orgs
    ∧ (upsertRepo db orgId t g).1.nextOrgId = db.nextOrgId := by
  unfold upsertRepo
  cases db.repos.find? (fun x => x.githubId == g.id) <;> exact ⟨rfl, rfl, rfl⟩

lemma upsertRepo_mem (db : DB) (orgId t : Nat) (g : GithubRepo) :
    (upsertRepo db orgId t g).2 ∈ (upsertRepo db orgId t g).1.repos := by
  cases hf : db.repos.find? (fun x => x.githubId == g.id) with
  | some r =>
    rw [upsertRepo_found hf]
    obtain ⟨l₁, l₂, hdec, hl₁⟩ := find?_decomp hf
    have hr := List.find?_some hf
    rw [hdec, updateFirst_append_of_not hl₁ hr (repoUpdate orgId t g) l₂]
    exact List.mem_append_right _ (List.mem_cons_self _ _)
  | none =>
    rw [upsertRepo_none hf]
    exact List.mem_append_right _ (List.mem_cons_self _ _)

lemma processRepo_err {env : String → String → FetchResult} {orgId t : Nat}
    {g : GithubRepo} {st : Nat} (db : DB) (c : Counters)
    (henv : env g.owner_login g.name = .err st) :
    processRepo env orgId t g db c
      = ((upsertRepo db orgId t g).1, { c with errorCount := c.errorCount + 1 }) := by
  unfold processRepo
  rw [henv]

lemma processRepo_notFound {env : String → String → FetchResult} {orgId t : Nat}
    {g : GithubRepo} (db : DB) (c : Counters)
    (henv : env g.owner_login g.name = .notFound) :
    processRepo env orgId t g db c
      = (setHasPkg (deletePkgs (upsertRepo db orgId t g).1 (upsertRepo db orgId t g).2.id)
           (upsertRepo db orgId t g).2.id false,
         { c with noPackageJsonCount := c.noPackageJsonCount + 1 }) := by
  unfold processRepo
  rw [henv]

lemma processRepo_ok {env : String → String → FetchResult} {orgId t : Nat}
    {g : GithubRepo} {content : PackageJsonData} (db : DB) (c : Counters)
    (henv : env g.owner_login g.name = .ok content) :
    processRepo env orgId t g db c
      = (setHasPkg (upsertPkg (upsertRepo db orgId t g).1 (upsertRepo db orgId t g).2.id t content)
           (upsertRepo db orgId t g).2.id true,
         { c with successCount := c.successCount + 1 }) := by
  unfold processRepo
  rw [henv]

lemma processRepo_okUnparseable {env : String → String → FetchResult} {orgId t : Nat}
    {g : GithubRepo} (db : DB) (c : Counters)
    (henv : env g.owner_login g.name = .okUnparseable) :
    processRepo env orgId t g db c = (db, { c with errorCount := c.errorCount + 1 }) := by
  unfold processRepo
  rw [henv]

/-- C2 (amended): when the manifest fetch of a known repository fails with
any status other than success or 404, the unit of work leaves every manifest
row untouched, changes no repository row's `hasPackageJson` flag (and no
row's identity), records the error in `errorCount`, and continues; the
repository row's metadata and `last_fetched_at`, however, were already
refreshed by the upsert that runs before the fetch (see the
counterexample). -/
theorem C2_transient_failure_frame (env : String → String → FetchResult)
    (orgId t : Nat) (g : GithubRepo) (db : DB) (c : Counters) (st : Nat) (r : RepoRow)
    (henv : env g.owner_login g.name = .err st)
    (hf : db.repos.find? (fun x => x.githubId == g.id) = some r) :
    (processRepo env orgId t g db c).1.pkgs = db.pkgs
    ∧ (processRepo env orgId t g db c).1.repos.map (fun x => x.hasPackageJson)
        = db.repos.map (fun x => x.hasPackageJson)
    ∧ (processRepo env orgId t g db c).1.repos.map (fun x => x.id)
        = db.repos.map (fun x => x.id)
    ∧ (processRepo env orgId t g db c).2 = { c with errorCount := c.errorCount + 1 } := by
  rw [processRepo_err db c henv, upsertRepo_found hf]
  refine ⟨rfl, ?_, ?_, rfl⟩
  · show (updateFirst (fun x => x.githubId == g.id) (repoUpdate orgId t g) db.repos).map
        (fun x => x.hasPackageJson) = db.repos.map (fun x => x.hasPackageJson)
    exact map_updateFirst (g := repoUpdate orgId t g)
      (f := fun x => x.hasPackageJson) (fun x => rfl) db.repos
  · show (updateFirst (fun x => x.githubId == g.id) (repoUpdate orgId t g) db.repos).map
        (fun x => x.id) = db.repos.map (fun x => x.id)
    exact map_updateFirst (g := repoUpdate orgId t g)
      (f := fun x => x.id) (fun x => rfl) db.repos

/-- A stored repository row for `gAlpha` fetched at time 0, with a manifest. -/
def rAlpha : RepoRow :=
  ⟨0, 1, "alpha", "acme/alpha", "https://example.com/alpha", "main", none, 7, 0, true⟩

/-- The stored manifest row of `rAlpha`. -/
def pkgAlpha : PkgRow :=
  ⟨0, some "alpha", some "1.0.0", none, none, some "MIT", [("lodash", "4.0.0")], [], [], 0⟩

/-- A store holding `rAlpha` and its manifest. -/
def dbAlpha : DB := ⟨2, 1, [⟨1, "acme"⟩], [rAlpha], [pkgAlpha]⟩

/-- C2 (counterexample): with the manifest fetch failing at status 500
(neither success nor 404), the unit of work still rewrites the repository
row — `last_fetched_at` changes from 0 to the current run time 5 — because
the repository upsert precedes the fetch inside the same transaction and the
error branch commits; this contradicts the claim that no field of the
Repository row, including `last_fetched_at`, is changed. -/
theorem C2_counterexample :
    envFail gAlpha.owner_login gAlpha.name = FetchResult.err 500
    ∧ dbAlpha.repos.map (fun r => r.lastFetchedAt) = [0]
    ∧ (processRepo envFail 1 5 gAlpha dbAlpha ⟨0, 0, 0⟩).1.repos.map (fun r => r.lastFetchedAt)
        = [5] := by
  exact ⟨rfl, rfl, rfl⟩

/-- Witness for C2 at the concrete store `dbAlpha`. -/
theorem C2_transient_failure_frame_witness :
    (processRepo envFail 1 5 gAlpha dbAlpha ⟨0, 0, 0⟩).1.pkgs = dbAlpha.pkgs
    ∧ (processRepo envFail 1 5 gAlpha dbAlpha ⟨0, 0, 0⟩).1.repos.map (fun x => x.hasPackageJson)
        = dbAlpha.repos.map (fun x => x.hasPackageJson)
    ∧ (processRepo envFail 1 5 gAlpha dbAlpha ⟨0, 0, 0⟩).1.repos.map (fun x => x.id)
        = dbAlpha.repos.map (fun x => x.id)
    ∧ (processRepo envFail 1 5 gAlpha dbAlpha ⟨0, 0, 0⟩).2
        = { successCount := 0, noPackageJsonCount := 0, errorCount := 1 } :=
  C2_transient_failure_frame envFail 1 5 gAlpha dbAlpha ⟨0, 0, 0⟩ 500 rAlpha rfl rfl

/-- C4: when the manifest fetch returns 404, the unit of work deletes every
manifest row of that repository (the stored manifest rows afterwards are
exactly the prior ones of other repositories, so zero rows — and with them
the embedded dependency/script data — remain for it), sets the repository's
`hasPackageJson` flag to false, and increments `noPackageJsonCount` by
exactly 1. -/
theorem C4_notfound_reconciliation (env : String → String → FetchResult)
    (orgId t : Nat) (g : GithubRepo) (db : DB) (c : Counters) (rid : Nat)
    (henv : env g.owner_login g.name = .notFound)
    (hrid : (upsertRepo db orgId t g).2.id = rid) :
    (processRepo env orgId t g db c).1.pkgs
        = db.pkgs.filter (fun q => !(q.repositoryId == rid))
    ∧ ((processRepo env orgId t g db c).1.repos.find? (fun x => x.id == rid)).map
        (fun x => x.hasPackageJson) = some false
    ∧ (∀ q ∈ (processRepo env orgId t g db c).1.pkgs, q.repositoryId ≠ rid)
    ∧ (processRepo env orgId t g db c).2
        = { c with noPackageJsonCount := c.noPackageJsonCount + 1 } := by
  subst hrid
  rw [processRepo_notFound db c henv]
  have hpkgs : (setHasPkg (deletePkgs (upsertRepo db orgId t g).1 (upsertRepo db orgId t g).2.id)
      (upsertRepo db orgId t g).2.id false).pkgs
      = db.pkgs.filter (fun q => !(q.repositoryId == (upsertRepo db orgId t g).2.id)) := by
    show (upsertRepo db orgId t g).1.pkgs.filter
        (fun q => !(q.repositoryId == (upsertRepo db orgId t g).2.id))
      = db.pkgs.filter (fun q => !(q.repositoryId == (upsertRepo db orgId t g).2.id))
    rw [(upsertRepo_frame db orgId t g).1]
  refine ⟨hpkgs, ?_, ?_, rfl⟩
  · show ((updateFirst (fun x => x.id == (upsertRepo db orgId t g).2.id)
        (fun r => { r with hasPackageJson := false })
        (upsertRepo db orgId t g).1.repos).find?
          (fun x => x.id == (upsertRepo db orgId t g).2.id)).map
        (fun x => x.hasPackageJson) = some false
    rw [find?_updateFirst_matching (p := fun x => x.id == (upsertRepo db orgId t g).2.id)
      (g := fun r => { r with hasPackageJson := false }) (fun x hx => hx)
      (upsertRepo db orgId t g).1.repos]
    obtain ⟨y, hy⟩ := exists_find?_eq_some
      (p := fun x => x.id == (upsertRepo db orgId t g).2.id)
      (upsertRepo_mem db orgId t g) (by simp)
    rw [hy]
    rfl
  · intro q hq
    rw [hpkgs] at hq
    have h2 := List.of_mem_filter hq
    simpa using h2

/-- An environment in which every manifest fetch returns 404. -/
def envNotFound : String → String → FetchResult := fun _ _ => .notFound

/-- Witness for C4 at the concrete store `dbAlpha`, whose repository had a
manifest row before the 404. -/
theorem C4_notfound_reconciliation_witness :
    (processRepo envNotFound 1 5 gAlpha dbAlpha ⟨0, 0, 0⟩).1.pkgs
        = dbAlpha.pkgs.filter (fun q => !(q.repositoryId == 0))
    ∧ ((processRepo envNotFound 1 5 gAlpha dbAlpha ⟨0, 0, 0⟩).1.repos.find?
        (fun x => x.id == 0)).map (fun x => x.hasPackageJson) = some false
    ∧ (∀ q ∈ (processRepo envNotFound 1 5 gAlpha dbAlpha ⟨0, 0, 0⟩).1.pkgs, q.repositoryId ≠ 0)
    ∧ (processRepo envNotFound 1 5 gAlpha dbAlpha ⟨0, 0, 0⟩).2
        = { successCount := 0, noPackageJsonCount := 1, errorCount := 0 } :=
  C4_notfound_reconciliation envNotFound 1 5 gAlpha dbAlpha ⟨0, 0, 0⟩ 0 rfl rfl

lemma map_updateFirst_match {p : α → Bool} {g : α → α} {f : α → β}
    (h : ∀ x, p x = true → f (g x) = f x) (l : List α) :
    (updateFirst p g l).map f = l.map f := by
  induction l with
  | nil => rfl
  | cons y ys ih =>
    rw [updateFirst]
    by_cases hy : p y = true
    · rw [if_pos hy, List.map_cons, List.map_cons, h y hy]
    · rw [if_neg hy, List.map_cons, List.map_cons, ih]

lemma updateFirst_mem_of_not {p : α → Bool} {f : α → α} {l : List α} {x : α}
    (hx : x ∈ l) (hpx : p x = false) : x ∈ updateFirst p f l := by
  induction l with
  | nil => simp at hx
  | cons y ys ih =>
    rw [updateFirst]
    by_cases hy : p y = true
    · rw [if_pos hy]
      rcases List.mem_cons.mp hx with rfl | hx'
      · rw [hy] at hpx; exact absurd hpx (by simp)
      · exact List.mem_cons_of_mem _ hx'
    · rw [if_neg hy]
      rcases List.mem_cons.mp hx with rfl | hx'
      · exact List.mem_cons_self _ _
      · exact List.mem_cons_of_mem _ (ih hx')

lemma updateFirst_exists_same {p : α → Bool} {f : α → α} {F : α → β}
    (hpres : ∀ x, F (f x) = F x) {l : List α} {r : α} (hr : r ∈ l) :
    ∃ x, x ∈ updateFirst p f l ∧ F x = F r := by
  induction l with
  | nil => simp at hr
  | cons y ys ih =>
    rw [updateFirst]
    by_cases hy : p y = true
    · rw [if_pos hy]
      rcases List.mem_cons.mp hr with rfl | hr'
      · exact ⟨f r, List.mem_cons_self _ _, hpres r⟩
      · exact ⟨r, List.mem_cons_of_mem _ hr', rfl⟩
    · rw [if_neg hy]
      rcases List.mem_cons.mp hr with rfl | hr'
      · exact ⟨r, List.mem_cons_self _ _, rfl⟩
      · obtain ⟨x, hmem, hFx⟩ := ih hr'
        exact ⟨x, List.mem_cons_of_mem _ hmem, hFx⟩

lemma nodup_decomp_ne {f : α → β} {l₁ l₂ : List α} {y : α}
    (h : ((l₁ ++ y :: l₂).map f).Nodup) :
    (∀ x ∈ l₁, f x ≠ f y) ∧ (∀ x ∈ l₂, f x ≠ f y) := by
  rw [List.map_append, List.map_cons, List.nodup_append] at h
  obtain ⟨-, hcons, hdisj⟩ := h
  constructor
  · intro x hx heq
    exact hdisj (List.mem_map_of_mem f hx) (by rw [heq]; exact List.mem_cons_self _ _)
  · intro x hx heq
    rw [List.nodup_cons] at hcons
    exact hcons.1 (heq ▸ List.mem_map_of_mem f hx)

lemma upsertPkg_exists (db : DB) (rid t : Nat) (p : PackageJsonData) :
    ∃ q, q ∈ (upsertPkg db rid t p).pkgs ∧ q.repositoryId = rid := by
  unfold upsertPkg
  by_cases hany : db.pkgs.any (fun q => q.repositoryId == rid)
  · rw [if_pos hany]
    obtain ⟨q0, hq0, hq0p⟩ := List.any_eq_true.mp hany
    obtain ⟨b, hfind⟩ :=
      exists_find?_eq_some (p := fun q => q.repositoryId == rid) hq0 hq0p
    obtain ⟨l₁, l₂, hdec, hl₁⟩ := find?_decomp hfind
    have hb := List.find?_some hfind
    rw [hdec, updateFirst_append_of_not hl₁ hb (fun x => pkgFields rid t p) l₂]
    exact ⟨pkgFields rid t p, List.mem_append_right _ (List.mem_cons_self _ _), rfl⟩
  · rw [if_neg hany]
    exact ⟨pkgFields rid t p, List.mem_append_right _ (List.mem_cons_self _ _), rfl⟩

lemma upsertPkg_other {db : DB} {rid t : Nat} {p : PackageJsonData} {k : Nat} (hk : k ≠ rid) :
    (∃ q, q ∈ (upsertPkg db rid t p).pkgs ∧ q.repositoryId = k)
      ↔ (∃ q, q ∈ db.pkgs ∧ q.repositoryId = k) := by
  unfold upsertPkg
  by_cases hany : db.pkgs.any (fun q => q.repositoryId == rid)
  · rw [if_pos hany]
    constructor
    · rintro ⟨q, hq, rfl⟩
      rcases mem_updateFirst hq with hmem | ⟨y, hy, -, rfl⟩
      · exact ⟨q, hmem, rfl⟩
      · exact absurd rfl hk
    · rintro ⟨q, hq, rfl⟩
      refine ⟨q, ?_, rfl⟩
      exact updateFirst_mem_of_not hq (by simpa using hk)
  · rw [if_neg hany]
    constructor
    · rintro ⟨q, hq, rfl⟩
      rcases List.mem_append.mp hq with hmem | hnew
      · exact ⟨q, hmem, rfl⟩
      · rw [List.mem_singleton] at hnew
        subst hnew
        exact absurd rfl hk
    · rintro ⟨q, hq, rfl⟩
      exact ⟨q, List.mem_append_left _ hq, rfl⟩

lemma deletePkgs_other {db : DB} {rid k : Nat} (hk : k ≠ rid) :
    (∃ q, q ∈ (deletePkgs db rid).pkgs ∧ q.repositoryId = k)
      ↔ (∃ q, q ∈ db.pkgs ∧ q.repositoryId = k) := by
  constructor
  · rintro ⟨q, hq, rfl⟩
    exact ⟨q, (List.mem_filter.mp hq).1, rfl⟩
  · rintro ⟨q, hq, rfl⟩
    refine ⟨q, List.mem_filter.mpr ⟨hq, ?_⟩, rfl⟩
    simpa using hk

lemma wf_upsertRepo (db : DB) (orgId t : Nat) (g : GithubRepo) (hwf : WF db) :
    WF (upsertRepo db orgId t g).1 := by
  rw [WF_iff] at hwf ⊢
  obtain ⟨h1, h2, h3, h4, h5⟩ := hwf
  cases hf : db.repos.find? (fun x => x.githubId == g.id) with
  | some r =>
    rw [upsertRepo_found hf]
    refine ⟨?_, ?_, ?_, h4, ?_⟩
    · show ((updateFirst (fun x => x.githubId == g.id) (repoUpdate orgId t g) db.repos).map
          (fun r => r.id)).Nodup
      rw [map_updateFirst (g := repoUpdate orgId t g) (f := fun r => r.id) (fun x => rfl) db.repos]
      exact h1
    · show ((updateFirst (fun x => x.githubId == g.id) (repoUpdate orgId t g) db.repos).map
          (fun r => r.githubId)).Nodup
      rw [map_updateFirst_match (g := repoUpdate orgId t g) (f := fun r => r.githubId)
        (fun x hx => by simpa using (by simpa using hx : x.githubId = g.id).symm) db.repos]
      exact h2
    · intro x hx
      rcases mem_updateFirst hx with hmem | ⟨y, hy, -, rfl⟩
      · exact h3 x hmem
      · exact h3 y hy
    · intro q hq
      obtain ⟨rr, hrr, hid⟩ := h5 q hq
      obtain ⟨x, hxmem, hFx⟩ := updateFirst_exists_same
        (p := fun x => x.githubId == g.id) (f := repoUpdate orgId t g)
        (F := fun r => r.id) (fun x => rfl) hrr
      exact ⟨x, hxmem, by rw [hFx]; exact hid⟩
  | none =>
    rw [upsertRepo_none hf]
    have hnone := List.find?_eq_none.mp hf
    refine ⟨?_, ?_, ?_, h4, ?_⟩
    · show ((db.repos ++ [repoCreate db.nextRepoId orgId t g]).map (fun r => r.id)).Nodup
      rw [List.map_append, List.nodup_append]
      refine ⟨h1, List.nodup_singleton _, ?_⟩
      intro a ha hb
      obtain ⟨x, hx, rfl⟩ := List.mem_map.mp ha
      rw [List.map_singleton, List.mem_singleton] at hb
      have := h3 x hx
      rw [hb] at this
      exact absurd this (lt_irrefl _)
    · show ((db.repos ++ [repoCreate db.nextRepoId orgId t g]).map (fun r => r.githubId)).Nodup
      rw [List.map_append, List.nodup_append]
      refine ⟨h2, List.nodup_singleton _, ?_⟩
      intro a ha hb
      obtain ⟨x, hx, rfl⟩ := List.mem_map.mp ha
      rw [List.map_singleton, List.mem_singleton] at hb
      exact hnone x hx (by simpa using hb)
    · intro x hx
      rcases List.mem_append.mp hx with hmem | hnew
      · exact Nat.lt_trans (h3 x hmem) (Nat.lt_succ_self _)
      · rw [List.mem_singleton] at hnew
        subst hnew
        exact Nat.lt_succ_self _
    · intro q hq
      obtain ⟨rr, hrr, hid⟩ := h5 q hq
      exact ⟨rr, List.mem_append_left _ hrr, hid⟩

lemma inv_upsertRepo (db : DB) (orgId t : Nat) (g : GithubRepo)
    (hwf : WF db) (hinv : InvDB db) : InvDB (upsertRepo db orgId t g).1 := by
  cases hf : db.repos.find? (fun x => x.githubId == g.id) with
  | some r =>
    rw [upsertRepo_found hf]
    intro x hx
    rcases mem_updateFirst hx with hmem | ⟨y, hy, -, rfl⟩
    · exact hinv x hmem
    · exact hinv y hy
  | none =>
    rw [upsertRepo_none hf]
    intro x hx
    rcases List.mem_append.mp hx with hmem | hnew
    · exact hinv x hmem
    · rw [List.mem_singleton] at hnew
      subst hnew
      constructor
      · intro habs
        exact absurd habs (by simp [repoCreate])
      · rintro ⟨q, hq, hid⟩
        obtain ⟨-, -, h3, -, h5⟩ := (WF_iff db).mp hwf
        obtain ⟨rr, hrr, hid2⟩ := h5 q hq
        have hlt := h3 rr hrr
        rw [hid2, hid] at hlt
        exact absurd hlt (lt_irrefl _)

lemma wf_deletePkgs (db : DB) (rid : Nat) (hwf : WF db) : WF (deletePkgs db rid) := by
  rw [WF_iff] at hwf ⊢
  obtain ⟨h1, h2, h3, h4, h5⟩ := hwf
  refine ⟨h1, h2, h3, ?_, ?_⟩
  · exact List.Nodup.sublist ((List.filter_sublist _).map _) h4
  · intro q hq
    exact h5 q (List.mem_filter.mp hq).1

lemma wf_setHasPkg (db : DB) (rid : Nat) (b : Bool) (hwf : WF db) :
    WF (setHasPkg db rid b) := by
  rw [WF_iff] at hwf ⊢
  obtain ⟨h1, h2, h3, h4, h5⟩ := hwf
  refine ⟨?_, ?_, ?_, h4, ?_⟩
  · show ((updateFirst (fun r => r.id == rid) (fun r => { r with hasPackageJson := b })
        db.repos).map (fun r => r.id)).Nodup
    rw [map_updateFirst (g := fun r => { r with hasPackageJson := b })
      (f := fun r => r.id) (fun x => rfl) db.repos]
    exact h1
  · show ((updateFirst (fun r => r.id == rid) (fun r => { r with hasPackageJson := b })
        db.repos).map (fun r => r.githubId)).Nodup
    rw [map_updateFirst (g := fun r => { r with hasPackageJson := b })
      (f := fun r => r.githubId) (fun x => rfl) db.repos]
    exact h2
  · intro x hx
    rcases mem_updateFirst hx with hmem | ⟨y, hy, -, rfl⟩
    · exact h3 x hmem
    · exact h3 y hy
  · intro q hq
    obtain ⟨rr, hrr, hid⟩ := h5 q hq
    obtain ⟨x, hxmem, hFx⟩ := updateFirst_exists_same
      (p := fun r => r.id == rid) (f := fun r => { r with hasPackageJson := b })
      (F := fun r => r.id) (fun x => rfl) hrr
    exact ⟨x, hxmem, by rw [hFx]; exact hid⟩

lemma wf_upsertPkg (db : DB) (rid t : Nat) (p : PackageJsonData) (hwf : WF db)
    (hrid : ∃ rr, rr ∈ db.repos ∧ rr.id = rid) : WF (upsertPkg db rid t p) := by
  rw [WF_iff] at hwf ⊢
  obtain ⟨h1, h2, h3, h4, h5⟩ := hwf
  unfold upsertPkg
  by_cases hany : db.pkgs.any (fun q => q.repositoryId == rid)
  · rw [if_pos hany]
    refine ⟨h1, h2, h3, ?_, ?_⟩
    · show ((updateFirst (fun q => q.repositoryId == rid) (fun _ => pkgFields rid t p)
          db.pkgs).map (fun q => q.repositoryId)).Nodup
      rw [map_updateFirst_match (g := fun _ => pkgFields rid t p)
        (f := fun q => q.repositoryId)
        (fun x hx => by simpa using (by simpa using hx : x.repositoryId = rid).symm) db.pkgs]
      exact h4
    · intro q hq
      rcases mem_updateFirst hq with hmem | ⟨y, hy, -, rfl⟩
      · exact h5 q hmem
      · exact hrid
  · rw [if_neg hany]
    have hnone : ∀ q ∈ db.pkgs, (q.repositoryId == rid) = false := by
      intro q hq
      by_contra habs
      exact hany (List.any_eq_true.mpr ⟨q, hq, by revert habs; cases q.repositoryId == rid <;> simp⟩)
    refine ⟨h1, h2, h3, ?_, ?_⟩
    · show ((db.pkgs ++ [pkgFields rid t p]).map (fun q => q.repositoryId)).Nodup
      rw [List.map_append, List.nodup_append]
      refine ⟨h4, List.nodup_singleton _, ?_⟩
      intro a ha hb
      obtain ⟨x, hx, rfl⟩ := List.mem_map.mp ha
      rw [List.map_singleton, List.mem_singleton] at hb
      have := hnone x hx
      rw [show (pkgFields rid t p).repositoryId = rid from rfl] at hb
      simp [hb] at this
    · intro q hq
      rcases List.mem_append.mp hq with hmem | hnew
      · exact h5 q hmem
      · rw [List.mem_singleton] at hnew
        subst hnew
        exact hrid

lemma upsertPkg_frame (db : DB) (rid t : Nat) (p : PackageJsonData) :
    (upsertPkg db rid t p).repos = db.repos
    ∧ (upsertPkg db rid t p).orgs = db.orgs
    ∧ (upsertPkg db rid t p).nextRepoId = db.nextRepoId
    ∧ (upsertPkg db rid t p).nextOrgId = db.nextOrgId := by
  unfold upsertPkg
  by_cases hany : db.pkgs.any (fun q => q.repositoryId == rid)
  · rw [if_pos hany]
    exact ⟨rfl, rfl, rfl, rfl⟩
  · rw [if_neg hany]
    exact ⟨rfl, rfl, rfl, rfl⟩

lemma wf_processRepo (env : String → String → FetchResult) (orgId t : Nat)
    (g : GithubRepo) (db : DB) (c : Counters) (hwf : WF db) :
    WF (processRepo env orgId t g db c).1 := by
  cases henv : env g.owner_login g.name with
  | ok content =>
    rw [processRepo_ok db c henv]
    exact wf_setHasPkg _ _ _ (wf_upsertPkg _ _ _ _ (wf_upsertRepo db orgId t g hwf)
      ⟨(upsertRepo db orgId t g).2, upsertRepo_mem db orgId t g, rfl⟩)
  | okUnparseable =>
    rw [processRepo_okUnparseable db c henv]
    exact hwf
  | notFound =>
    rw [processRepo_notFound db c henv]
    exact wf_setHasPkg _ _ _ (wf_deletePkgs _ _ (wf_upsertRepo db orgId t g hwf))
  | err st =>
    rw [processRepo_err db c henv]
    exact wf_upsertRepo db orgId t g hwf

/-- C3: the `has_manifest` invariant — a repository's `hasPackageJson` flag
is true exactly when a manifest row exists for it — is preserved by every
completed per-repository unit of work, whatever the fetch outcome (success,
confirmed absent, transient error, or rolled-back parse failure).  The
sibling route `fetch-package-json/route.ts` performs the same
delete-then-flag / upsert-then-flag sequences. -/
theorem C3_has_manifest_invariant (env : String → String → FetchResult)
    (orgId t : Nat) (g : GithubRepo) (db : DB) (c : Counters)
    (hwf : WF db) (hinv : InvDB db) : InvDB (processRepo env orgId t g db c).1 := by
  have hwf1 : WF (upsertRepo db orgId t g).1 := wf_upsertRepo db orgId t g hwf
  have hinv1 : InvDB (upsertRepo db orgId t g).1 := inv_upsertRepo db orgId t g hwf hinv
  have hmem1 := upsertRepo_mem db orgId t g
  obtain ⟨y, hyfind⟩ := exists_find?_eq_some
    (p := fun x => x.id == (upsertRepo db orgId t g).2.id) hmem1 (by simp)
  obtain ⟨m₁, m₂, hdec, hm₁⟩ := find?_decomp hyfind
  have hymatch := List.find?_some hyfind
  have hyid : y.id = (upsertRepo db orgId t g).2.id := by simpa using hymatch
  have hids : (((upsertRepo db orgId t g).1.repos.map (fun r => r.id))).Nodup :=
    ((WF_iff _).mp hwf1).1
  rw [hdec] at hids
  have hne := nodup_decomp_ne (f := fun (r : RepoRow) => r.id) hids
  cases henv : env g.owner_login g.name with
  | okUnparseable =>
    rw [processRepo_okUnparseable db c henv]
    exact hinv
  | err st =>
    rw [processRepo_err db c henv]
    exact hinv1
  | ok content =>
    rw [processRepo_ok db c henv]
    intro x hx
    have hx' : x ∈ updateFirst (fun (r : RepoRow) => r.id == (upsertRepo db orgId t g).2.id)
        (fun (r : RepoRow) => { r with hasPackageJson := true })
        (upsertPkg (upsertRepo db orgId t g).1 (upsertRepo db orgId t g).2.id t content).repos := hx
    rw [(upsertPkg_frame (upsertRepo db orgId t g).1 (upsertRepo db orgId t g).2.id t content).1,
      hdec, updateFirst_append_of_not hm₁ hymatch _ _] at hx'
    rcases List.mem_append.mp hx' with hxm | hxc
    · have hxid : x.id ≠ (upsertRepo db orgId t g).2.id := by
        rw [← hyid]; exact hne.1 x hxm
      have hxmem : x ∈ (upsertRepo db orgId t g).1.repos := by
        rw [hdec]; exact List.mem_append_left _ hxm
      show x.hasPackageJson = true ↔
        ∃ q, q ∈ (upsertPkg (upsertRepo db orgId t g).1 (upsertRepo db orgId t g).2.id t
          content).pkgs ∧ q.repositoryId = x.id
      rw [upsertPkg_other hxid]
      exact hinv1 x hxmem
    · rcases List.mem_cons.mp hxc with rfl | hxm₂
      · show true = true ↔ ∃ q, q ∈ (upsertPkg (upsertRepo db orgId t g).1
            (upsertRepo db orgId t g).2.id t content).pkgs ∧
            q.repositoryId = ({ y with hasPackageJson := true } : RepoRow).id
        constructor
        · intro
          obtain ⟨q, hq, hqid⟩ := upsertPkg_exists (upsertRepo db orgId t g).1
            (upsertRepo db orgId t g).2.id t content
          exact ⟨q, hq, by rw [hqid]; exact hyid.symm⟩
        · intro
          rfl
      · have hxid : x.id ≠ (upsertRepo db orgId t g).2.id := by
          rw [← hyid]; exact hne.2 x hxm₂
        have hxmem : x ∈ (upsertRepo db orgId t g).1.repos := by
          rw [hdec]; exact List.mem_append_right _ (List.mem_cons_of_mem _ hxm₂)
        show x.hasPackageJson = true ↔
          ∃ q, q ∈ (upsertPkg (upsertRepo db orgId t g).1 (upsertRepo db orgId t g).2.id t
            content).pkgs ∧ q.repositoryId = x.id
        rw [upsertPkg_other hxid]
        exact hinv1 x hxmem
  | notFound =>
    rw [processRepo_notFound db c henv]
    intro x hx
    have hx' : x ∈ updateFirst (fun (r : RepoRow) => r.id == (upsertRepo db orgId t g).2.id)
        (fun (r : RepoRow) => { r with hasPackageJson := false })
        (upsertRepo db orgId t g).1.repos := hx
    rw [hdec, updateFirst_append_of_not hm₁ hymatch _ _] at hx'
    rcases List.mem_append.mp hx' with hxm | hxc
    · have hxid : x.id ≠ (upsertRepo db orgId t g).2.id := by
        rw [← hyid]; exact hne.1 x hxm
      have hxmem : x ∈ (upsertRepo db orgId t g).1.repos := by
        rw [hdec]; exact List.mem_append_left _ hxm
      show x.hasPackageJson = true ↔
        ∃ q, q ∈ (deletePkgs (upsertRepo db orgId t g).1
          (upsertRepo db orgId t g).2.id).pkgs ∧ q.repositoryId = x.id
      rw [deletePkgs_other hxid]
      exact hinv1 x hxmem
    · rcases List.mem_cons.mp hxc with rfl | hxm₂
      · show false = true ↔ ∃ q, q ∈ (deletePkgs (upsertRepo db orgId t g).1
            (upsertRepo db orgId t g).2.id).pkgs ∧
            q.repositoryId = ({ y with hasPackageJson := false } : RepoRow).id
        constructor
        · intro habs
          exact absurd habs (by simp)
        · rintro ⟨q, hq, hqid⟩
          have hkeep := List.of_mem_filter hq
          rw [show ({ y with hasPackageJson := false } : RepoRow).id = y.id from rfl, hyid] at hqid
          simp [hqid] at hkeep
      · have hxid : x.id ≠ (upsertRepo db orgId t g).2.id := by
          rw [← hyid]; exact hne.2 x hxm₂
        have hxmem : x ∈ (upsertRepo db orgId t g).1.repos := by
          rw [hdec]; exact List.mem_append_right _ (List.mem_cons_of_mem _ hxm₂)
        show x.hasPackageJson = true ↔
          ∃ q, q ∈ (deletePkgs (upsertRepo db orgId t g).1
            (upsertRepo db orgId t g).2.id).pkgs ∧ q.repositoryId = x.id
        rw [deletePkgs_other hxid]
        exact hinv1 x hxmem

/-- Witness for C3: the invariant holds on `dbAlpha` and is preserved by a
404 unit of work there (which flips the flag to false while deleting the
manifest row). -/
theorem C3_has_manifest_invariant_witness :
    WF dbAlpha ∧ InvDB dbAlpha
    ∧ InvDB (processRepo envNotFound 1 5 gAlpha dbAlpha ⟨0, 0, 0⟩).1 :=
  ⟨by decide, by decide,
   C3_has_manifest_invariant envNotFound 1 5 gAlpha dbAlpha ⟨0, 0, 0⟩ (by decide) (by decide)⟩

/-- Per-repository saturation: the store already holds exactly what one unit
of work for `g` would write (up to timestamps), for the outcome `env`
prescribes for `g`.  A second unit of work from such a store changes nothing
but timestamps. -/
def StableFor (env : String → String → FetchResult) (orgId : Nat) (g : GithubRepo)
    (db : DB) : Prop :=
  match env g.owner_login g.name with
  | .okUnparseable => True
  | .ok content => ∃ rid : Nat,
      (db.repos.find? (fun x => x.githubId == g.id)).map RepoRow.toStable
        = some (commonStable orgId g rid true)
      ∧ (db.pkgs.find? (fun q => q.repositoryId == rid)).map PkgRow.toStable
        = some (pkgStableOf rid content)
  | .notFound => ∃ rid : Nat,
      (db.repos.find? (fun x => x.githubId == g.id)).map RepoRow.toStable
        = some (commonStable orgId g rid false)
      ∧ ∀ q ∈ db.pkgs, q.repositoryId ≠ rid
  | .err _ => ∃ (rid : Nat) (flag : Bool),
      (db.repos.find? (fun x => x.githubId == g.id)).map RepoRow.toStable
        = some (commonStable orgId g rid flag)

lemma repoUpdate_toStable (orgId t : Nat) (g : GithubRepo) (r : RepoRow) :
    (repoUpdate orgId t g r).toStable = commonStable orgId g r.id r.hasPackageJson := rfl

lemma repoCreate_toStable (id orgId t : Nat) (g : GithubRepo) :
    (repoCreate id orgId t g).toStable = commonStable orgId g id false := rfl

lemma pkgFields_toStable (rid t : Nat) (p : PackageJsonData) :
    (pkgFields rid t p).toStable = pkgStableOf rid p := rfl

lemma find?_toStable_congr {l l' : List RepoRow}
    (h : l.map RepoRow.toStable = l'.map RepoRow.toStable) (k : Nat) :
    (l.find? (fun x => x.githubId == k)).map RepoRow.toStable
      = (l'.find? (fun x => x.githubId == k)).map RepoRow.toStable := by
  rw [← find?_map_general (p := fun x => x.githubId == k)
      (q := fun rS => rS.githubId == k) (fun a => rfl) l,
    ← find?_map_general (p := fun x => x.githubId == k)
      (q := fun rS => rS.githubId == k) (fun a => rfl) l', h]

lemma find?_pkg_toStable_congr {l l' : List PkgRow}
    (h : l.map PkgRow.toStable = l'.map PkgRow.toStable) (k : Nat) :
    (l.find? (fun q => q.repositoryId == k)).map PkgRow.toStable
      = (l'.find? (fun q => q.repositoryId == k)).map PkgRow.toStable := by
  rw [← find?_map_general (p := fun q => q.repositoryId == k)
      (q := fun qS => qS.repositoryId == k) (fun a => rfl) l,
    ← find?_map_general (p := fun q => q.repositoryId == k)
      (q := fun qS => qS.repositoryId == k) (fun a => rfl) l', h]

lemma forall_repoId_congr {l l' : List PkgRow}
    (h : l.map PkgRow.toStable = l'.map PkgRow.toStable) (rid : Nat) :
    (∀ q ∈ l, q.repositoryId ≠ rid) ↔ (∀ q ∈ l', q.repositoryId ≠ rid) := by
  have h1 := (List.forall_mem_map (f := PkgRow.toStable) (l := l)
    (P := fun qS => qS.repositoryId ≠ rid)).symm
  have h2 := List.forall_mem_map (f := PkgRow.toStable) (l := l')
    (P := fun qS => qS.repositoryId ≠ rid)
  exact h1.trans (by rw [h]; exact h2)

lemma stable_eq_repos {db db' : DB} (h : db.stable = db'.stable) :
    db.repos.map RepoRow.toStable = db'.repos.map RepoRow.toStable := by
  have := congrArg DBStable.repos h
  simpa [DB.stable] using this

lemma stable_eq_pkgs {db db' : DB} (h : db.stable = db'.stable) :
    db.pkgs.map PkgRow.toStable = db'.pkgs.map PkgRow.toStable := by
  have := congrArg DBStable.pkgs h
  simpa [DB.stable] using this

lemma WF_congr {db db' : DB} (h : db.stable = db'.stable) : WF db ↔ WF db' := by
  unfold WF
  rw [h]

lemma StableFor_congr {env : String → String → FetchResult} {orgId : Nat}
    {g : GithubRepo} {db db' : DB} (h : db.stable = db'.stable) :
    StableFor env orgId g db ↔ StableFor env orgId g db' := by
  have hrep := stable_eq_repos h
  have hpkg := stable_eq_pkgs h
  unfold StableFor
  cases env g.owner_login g.name with
  | okUnparseable => exact Iff.rfl
  | ok content =>
    exact exists_congr fun rid => and_congr
      (by rw [find?_toStable_congr hrep]) (by rw [find?_pkg_toStable_congr hpkg])
  | notFound =>
    exact exists_congr fun rid => and_congr
      (by rw [find?_toStable_congr hrep]) (forall_repoId_congr hpkg rid)
  | err st =>
    exact exists_congr fun rid => exists_congr fun flag => by
      rw [find?_toStable_congr hrep]

lemma stable_ext {db db' : DB} (h1 : db.nextOrgId = db'.nextOrgId)
    (h2 : db.nextRepoId = db'.nextRepoId) (h3 : db.orgs = db'.orgs)
    (h4 : db.repos.map RepoRow.toStable = db'.repos.map RepoRow.toStable)
    (h5 : db.pkgs.map PkgRow.toStable = db'.pkgs.map PkgRow.toStable) :
    db.stable = db'.stable := by
  unfold DB.stable
  rw [h1, h2, h3, h4, h5]

lemma upsertPkg_pkgs_pos {db : DB} {rid t : Nat} {p : PackageJsonData}
    (hany : db.pkgs.any (fun q => q.repositoryId == rid) = true) :
    (upsertPkg db rid t p).pkgs
      = updateFirst (fun q => q.repositoryId == rid) (fun _ => pkgFields rid t p) db.pkgs := by
  unfold upsertPkg
  rw [if_pos hany]

lemma upsertPkg_pkgs_neg {db : DB} {rid t : Nat} {p : PackageJsonData}
    (hany : db.pkgs.any (fun q => q.repositoryId == rid) = false) :
    (upsertPkg db rid t p).pkgs = db.pkgs ++ [pkgFields rid t p] := by
  unfold upsertPkg
  rw [if_neg (by simp [hany])]

lemma setHasPkg_repos (db : DB) (rid : Nat) (b : Bool) :
    (setHasPkg db rid b).repos
      = updateFirst (fun r => r.id == rid) (fun r => { r with hasPackageJson := b }) db.repos := rfl

lemma setHasPkg_pkgs (db : DB) (rid : Nat) (b : Bool) : (setHasPkg db rid b).pkgs = db.pkgs := rfl

lemma setHasPkg_orgs (db : DB) (rid : Nat) (b : Bool) : (setHasPkg db rid b).orgs = db.orgs := rfl

lemma setHasPkg_nextOrgId (db : DB) (rid : Nat) (b : Bool) :
    (setHasPkg db rid b).nextOrgId = db.nextOrgId := rfl

lemma setHasPkg_nextRepoId (db : DB) (rid : Nat) (b : Bool) :
    (setHasPkg db rid b).nextRepoId = db.nextRepoId := rfl

lemma deletePkgs_repos (db : DB) (rid : Nat) : (deletePkgs db rid).repos = db.repos := rfl

lemma deletePkgs_pkgs (db : DB) (rid : Nat) :
    (deletePkgs db rid).pkgs = db.pkgs.filter (fun q => !(q.repositoryId == rid)) := rfl

lemma deletePkgs_orgs (db : DB) (rid : Nat) : (deletePkgs db rid).orgs = db.orgs := rfl

lemma deletePkgs_nextOrgId (db : DB) (rid : Nat) :
    (deletePkgs db rid).nextOrgId = db.nextOrgId := rfl

lemma deletePkgs_nextRepoId (db : DB) (rid : Nat) :
    (deletePkgs db rid).nextRepoId = db.nextRepoId := rfl

lemma upsertRepo_found_repos {db : DB} {orgId t : Nat} {g : GithubRepo} {r : RepoRow}
    (hf : db.repos.find? (fun x => x.githubId == g.id) = some r) :
    (upsertRepo db orgId t g).1.repos
      = updateFirst (fun x => x.githubId == g.id) (repoUpdate orgId t g) db.repos := by
  rw [upsertRepo_found hf]

lemma upsertRepo_found_id {db : DB} (orgId t : Nat) {g : GithubRepo} {r : RepoRow}
    (hf : db.repos.find? (fun x => x.githubId == g.id) = some r) :
    (upsertRepo db orgId t g).2.id = r.id := by
  rw [upsertRepo_found hf]
  rfl

lemma upsertRepo_found_nextRepoId {db : DB} {orgId t : Nat} {g : GithubRepo} {r : RepoRow}
    (hf : db.repos.find? (fun x => x.githubId == g.id) = some r) :
    (upsertRepo db orgId t g).1.nextRepoId = db.nextRepoId := by
  rw [upsertRepo_found hf]

lemma processRepo_stable_eq (env : String → String → FetchResult) (orgId t : Nat)
    (g : GithubRepo) (db : DB) (c : Counters)
    (hwf : WF db) (hsf : StableFor env orgId g db) :
    (processRepo env orgId t g db c).1.stable = db.stable := by
  unfold StableFor at hsf
  cases henv : env g.owner_login g.name with
  | okUnparseable => rw [processRepo_okUnparseable db c henv]
  | err st =>
    rw [henv] at hsf
    obtain ⟨rid, flag, hfind⟩ := hsf
    obtain ⟨r0, hr0find, hr0st⟩ := Option.map_eq_some'.mp hfind
    have hr0match := List.find?_some hr0find
    have hid : r0.id = rid := congrArg RepoStable.id hr0st
    have hfl : r0.hasPackageJson = flag := congrArg RepoStable.hasPackageJson hr0st
    have hmid : (repoUpdate orgId t g r0).toStable = r0.toStable := by
      rw [repoUpdate_toStable, hid, hfl, hr0st]
    obtain ⟨l₁, l₂, hdec, hl₁⟩ := find?_decomp hr0find
    rw [processRepo_err db c henv]
    refine stable_ext ?_ ?_ ?_ ?_ ?_
    · exact (upsertRepo_frame db orgId t g).2.2
    · exact upsertRepo_found_nextRepoId hr0find
    · exact (upsertRepo_frame db orgId t g).2.1
    · rw [upsertRepo_found_repos hr0find, hdec,
        updateFirst_append_of_not hl₁ hr0match _ _]
      simp only [List.map_append, List.map_cons, hmid]
    · rw [(upsertRepo_frame db orgId t g).1]
  | notFound =>
    rw [henv] at hsf
    obtain ⟨rid, hfind, hnopkg⟩ := hsf
    obtain ⟨r0, hr0find, hr0st⟩ := Option.map_eq_some'.mp hfind
    have hr0match := List.find?_some hr0find
    have hid : r0.id = rid := congrArg RepoStable.id hr0st
    have hfl : r0.hasPackageJson = false := congrArg RepoStable.hasPackageJson hr0st
    obtain ⟨l₁, l₂, hdec, hl₁⟩ := find?_decomp hr0find
    have hids : ((l₁ ++ r0 :: l₂).map (fun (r : RepoRow) => r.id)).Nodup := by
      rw [← hdec]; exact ((WF_iff db).mp hwf).1
    have hne := nodup_decomp_ne (f := fun (r : RepoRow) => r.id) hids
    have hkey := upsertRepo_found_id orgId t hr0find
    have hl₁id : ∀ x ∈ l₁, (x.id == (upsertRepo db orgId t g).2.id) = false := by
      intro x hx
      rw [hkey]
      simpa using hne.1 x hx
    have hmidmatch : ((repoUpdate orgId t g r0).id == (upsertRepo db orgId t g).2.id) = true := by
      rw [hkey]
      simp [show (repoUpdate orgId t g r0).id = r0.id from rfl]
    rw [processRepo_notFound db c henv]
    refine stable_ext ?_ ?_ ?_ ?_ ?_
    · rw [setHasPkg_nextOrgId, deletePkgs_nextOrgId]
      exact (upsertRepo_frame db orgId t g).2.2
    · rw [setHasPkg_nextRepoId, deletePkgs_nextRepoId]
      exact upsertRepo_found_nextRepoId hr0find
    · rw [setHasPkg_orgs, deletePkgs_orgs]
      exact (upsertRepo_frame db orgId t g).2.1
    · rw [setHasPkg_repos, deletePkgs_repos, upsertRepo_found_repos hr0find, hdec,
        updateFirst_append_of_not hl₁ hr0match _ _,
        updateFirst_append_of_not hl₁id hmidmatch _ _]
      simp only [List.map_append, List.map_cons]
      have hmid : ({ repoUpdate orgId t g r0 with hasPackageJson := false } : RepoRow).toStable
          = r0.toStable := by
        show commonStable orgId g r0.id false = r0.toStable
        rw [hid, ← hr0st]
      rw [hmid]
    · rw [setHasPkg_pkgs, deletePkgs_pkgs, (upsertRepo_frame db orgId t g).1]
      have hself : db.pkgs.filter (fun q => !(q.repositoryId == (upsertRepo db orgId t g).2.id))
          = db.pkgs := by
        rw [List.filter_eq_self]
        intro q hq
        have hqr : q.repositoryId ≠ rid := hnopkg q hq
        rw [hkey]
        simp [hid.symm ▸ hqr]
      rw [hself]
  | ok content =>
    rw [henv] at hsf
    obtain ⟨rid, hfind, hpfind⟩ := hsf
    obtain ⟨r0, hr0find, hr0st⟩ := Option.map_eq_some'.mp hfind
    obtain ⟨p0, hp0find, hp0st⟩ := Option.map_eq_some'.mp hpfind
    have hr0match := List.find?_some hr0find
    have hid : r0.id = rid := congrArg RepoStable.id hr0st
    have hfl : r0.hasPackageJson = true := congrArg RepoStable.hasPackageJson hr0st
    have hpid : p0.repositoryId = rid := congrArg PkgStable.repositoryId hp0st
    obtain ⟨l₁, l₂, hdec, hl₁⟩ := find?_decomp hr0find
    obtain ⟨n₁, n₂, hpdec, hn₁⟩ := find?_decomp hp0find
    have hids : ((l₁ ++ r0 :: l₂).map (fun (r : RepoRow) => r.id)).Nodup := by
      rw [← hdec]; exact ((WF_iff db).mp hwf).1
    have hne := nodup_decomp_ne (f := fun (r : RepoRow) => r.id) hids
    have hkey := upsertRepo_found_id orgId t hr0find
    have hl₁id : ∀ x ∈ l₁, (x.id == (upsertRepo db orgId t g).2.id) = false := by
      intro x hx
      rw [hkey]
      simpa using hne.1 x hx
    have hmidmatch : ((repoUpdate orgId t g r0).id == (upsertRepo db orgId t g).2.id) = true := by
      rw [hkey]
      simp [show (repoUpdate orgId t g r0).id = r0.id from rfl]
    have hany : ((upsertRepo db orgId t g).1.pkgs.any
        (fun q => q.repositoryId == (upsertRepo db orgId t g).2.id)) = true := by
      rw [(upsertRepo_frame db orgId t g).1, hkey]
      refine List.any_eq_true.mpr ⟨p0, List.mem_of_find?_eq_some hp0find, ?_⟩
      simp [hpid, hid]
    rw [processRepo_ok db c henv]
    refine stable_ext ?_ ?_ ?_ ?_ ?_
    · rw [setHasPkg_nextOrgId]
      rw [(upsertPkg_frame _ _ _ _).2.2.2]
      exact (upsertRepo_frame db orgId t g).2.2
    · rw [setHasPkg_nextRepoId]
      rw [(upsertPkg_frame _ _ _ _).2.2.1]
      exact upsertRepo_found_nextRepoId hr0find
    · rw [setHasPkg_orgs]
      rw [(upsertPkg_frame _ _ _ _).2.1]
      exact (upsertRepo_frame db orgId t g).2.1
    · rw [setHasPkg_repos, (upsertPkg_frame _ _ _ _).1, upsertRepo_found_repos hr0find, hdec,
        updateFirst_append_of_not hl₁ hr0match _ _,
        updateFirst_append_of_not hl₁id hmidmatch _ _]
      simp only [List.map_append, List.map_cons]
      have hmid : ({ repoUpdate orgId t g r0 with hasPackageJson := true } : RepoRow).toStable
          = r0.toStable := by
        show commonStable orgId g r0.id true = r0.toStable
        rw [hid]
        exact hr0st.symm
      rw [hmid]
    · rw [setHasPkg_pkgs, upsertPkg_pkgs_pos hany, (upsertRepo_frame db orgId t g).1]
      have hn₁' : ∀ x ∈ n₁, (x.repositoryId == (upsertRepo db orgId t g).2.id) = false := by
        intro x hx
        rw [hkey]
        have := hn₁ x hx
        simpa [hid] using this
      have hp0match : (p0.repositoryId == (upsertRepo db orgId t g).2.id) = true := by
        rw [hkey]
        simp [hpid, hid]
      rw [hpdec, updateFirst_append_of_not hn₁' hp0match _ _]
      simp only [List.map_append, List.map_cons]
      have hmid : (pkgFields (upsertRepo db orgId t g).2.id t content).toStable = p0.toStable := by
        rw [pkgFields_toStable, hp0st, hkey, hid]
      rw [hmid]

lemma upsertRepo_none_repos {db : DB} {orgId t : Nat} {g : GithubRepo}
    (hf : db.repos.find? (fun x => x.githubId == g.id) = none) :
    (upsertRepo db orgId t g).1.repos = db.repos ++ [repoCreate db.nextRepoId orgId t g] := by
  rw [upsertRepo_none hf]

lemma upsertRepo_none_id {db : DB} (orgId t : Nat) {g : GithubRepo}
    (hf : db.repos.find? (fun x => x.githubId == g.id) = none) :
    (upsertRepo db orgId t g).2.id = db.nextRepoId := by
  rw [upsertRepo_none hf]
  rfl

lemma wf_no_pkg_at_nextRepoId {db : DB} (hwf : WF db) :
    ∀ q ∈ db.pkgs, (q.repositoryId == db.nextRepoId) = false := by
  intro q hq
  obtain ⟨-, -, h3, -, h5⟩ := (WF_iff db).mp hwf
  obtain ⟨rr, hrr, hid⟩ := h5 q hq
  have hlt := h3 rr hrr
  rw [hid] at hlt
  simp [Nat.ne_of_lt hlt]

lemma wf_no_repo_at_nextRepoId {db : DB} (hwf : WF db) :
    ∀ x ∈ db.repos, (x.id == db.nextRepoId) = false := by
  intro x hx
  obtain ⟨-, -, h3, -, -⟩ := (WF_iff db).mp hwf
  simp [Nat.ne_of_lt (h3 x hx)]

lemma processRepo_establishes (env : String → String → FetchResult) (orgId t : Nat)
    (g : GithubRepo) (db : DB) (c : Counters) (hwf : WF db) :
    StableFor env orgId g (processRepo env orgId t g db c).1 := by
  unfold StableFor
  cases henv : env g.owner_login g.name with
  | okUnparseable => trivial
  | err st =>
    rw [processRepo_err db c henv]
    cases hf : db.repos.find? (fun x => x.githubId == g.id) with
    | some r0 =>
      have hmatch := List.find?_some hf
      obtain ⟨l₁, l₂, hdec, hl₁⟩ := find?_decomp hf
      refine ⟨r0.id, r0.hasPackageJson, ?_⟩
      rw [upsertRepo_found_repos hf, hdec,
        updateFirst_append_of_not hl₁ hmatch (repoUpdate orgId t g) l₂,
        find?_append_cons_of_not hl₁ (by exact beq_self_eq_true g.id) l₂]
      rfl
    | none =>
      refine ⟨db.nextRepoId, false, ?_⟩
      rw [upsertRepo_none_repos hf,
        find?_append_cons_of_not (fun x hx => by
          simpa using List.find?_eq_none.mp hf x hx) (by exact beq_self_eq_true g.id) []]
      rfl
  | notFound =>
    rw [processRepo_notFound db c henv]
    cases hf : db.repos.find? (fun x => x.githubId == g.id) with
    | some r0 =>
      have hmatch := List.find?_some hf
      obtain ⟨l₁, l₂, hdec, hl₁⟩ := find?_decomp hf
      have hids : ((l₁ ++ r0 :: l₂).map (fun (r : RepoRow) => r.id)).Nodup := by
        rw [← hdec]; exact ((WF_iff db).mp hwf).1
      have hne := nodup_decomp_ne (f := fun (r : RepoRow) => r.id) hids
      have hkey := upsertRepo_found_id orgId t hf
      have hl₁id : ∀ x ∈ l₁, (x.id == (upsertRepo db orgId t g).2.id) = false := by
        intro x hx
        rw [hkey]
        simpa using hne.1 x hx
      have hmidmatch : ((repoUpdate orgId t g r0).id == (upsertRepo db orgId t g).2.id) = true := by
        rw [hkey]
        exact beq_self_eq_true r0.id
      refine ⟨(upsertRepo db orgId t g).2.id, ?_, ?_⟩
      · rw [setHasPkg_repos, deletePkgs_repos, upsertRepo_found_repos hf, hdec,
          updateFirst_append_of_not hl₁ hmatch (repoUpdate orgId t g) l₂,
          updateFirst_append_of_not hl₁id hmidmatch _ l₂,
          find?_append_cons_of_not hl₁ (by exact beq_self_eq_true g.id) l₂]
        show some (commonStable orgId g r0.id false) = _
        rw [hkey]
      · intro q hq
        rw [setHasPkg_pkgs, deletePkgs_pkgs] at hq
        have := List.of_mem_filter hq
        simpa using this
    | none =>
      have hkey := upsertRepo_none_id orgId t hf
      have hnomatch : ∀ x ∈ db.repos, (x.id == (upsertRepo db orgId t g).2.id) = false := by
        intro x hx
        rw [hkey]
        exact wf_no_repo_at_nextRepoId hwf x hx
      have hnewmatch : ((repoCreate db.nextRepoId orgId t g).id
          == (upsertRepo db orgId t g).2.id) = true := by
        rw [hkey]
        exact beq_self_eq_true db.nextRepoId
      refine ⟨(upsertRepo db orgId t g).2.id, ?_, ?_⟩
      · rw [setHasPkg_repos, deletePkgs_repos, upsertRepo_none_repos hf,
          updateFirst_append_of_not hnomatch hnewmatch _ [],
          find?_append_cons_of_not (fun x hx => by
            simpa using List.find?_eq_none.mp hf x hx) (by exact beq_self_eq_true g.id) []]
        show some (commonStable orgId g db.nextRepoId false) = _
        rw [hkey]
      · intro q hq
        rw [setHasPkg_pkgs, deletePkgs_pkgs] at hq
        have := List.of_mem_filter hq
        simpa using this
  | ok content =>
    rw [processRepo_ok db c henv]
    cases hf : db.repos.find? (fun x => x.githubId == g.id) with
    | some r0 =>
      have hmatch := List.find?_some hf
      obtain ⟨l₁, l₂, hdec, hl₁⟩ := find?_decomp hf
      have hids : ((l₁ ++ r0 :: l₂).map (fun (r : RepoRow) => r.id)).Nodup := by
        rw [← hdec]; exact ((WF_iff db).mp hwf).1
      have hne := nodup_decomp_ne (f := fun (r : RepoRow) => r.id) hids
      have hkey := upsertRepo_found_id orgId t hf
      have hl₁id : ∀ x ∈ l₁, (x.id == (upsertRepo db orgId t g).2.id) = false := by
        intro x hx
        rw [hkey]
        simpa using hne.1 x hx
      have hmidmatch : ((repoUpdate orgId t g r0).id == (upsertRepo db orgId t g).2.id) = true := by
        rw [hkey]
        exact beq_self_eq_true r0.id
      refine ⟨(upsertRepo db orgId t g).2.id, ?_, ?_⟩
      · rw [setHasPkg_repos, (upsertPkg_frame _ _ _ _).1, upsertRepo_found_repos hf, hdec,
          updateFirst_append_of_not hl₁ hmatch (repoUpdate orgId t g) l₂,
          updateFirst_append_of_not hl₁id hmidmatch _ l₂,
          find?_append_cons_of_not hl₁ (by exact beq_self_eq_true g.id) l₂]
        show some (commonStable orgId g r0.id true) = _
        rw [hkey]
      · rw [setHasPkg_pkgs]
        by_cases hany : ((upsertRepo db orgId t g).1.pkgs.any
            (fun q => q.repositoryId == (upsertRepo db orgId t g).2.id)) = true
        · obtain ⟨q0, hq0mem, hq0p⟩ := List.any_eq_true.mp hany
          obtain ⟨b, hbfind⟩ := exists_find?_eq_some
            (p := fun q => q.repositoryId == (upsertRepo db orgId t g).2.id) hq0mem hq0p
          have hbmatch := List.find?_some hbfind
          obtain ⟨n₁, n₂, hpdec, hn₁⟩ := find?_decomp hbfind
          rw [upsertPkg_pkgs_pos hany, hpdec,
            updateFirst_append_of_not hn₁ hbmatch _ n₂,
            find?_append_cons_of_not hn₁
              (by exact beq_self_eq_true (upsertRepo db orgId t g).2.id) n₂]
          rfl
        · have hany' : ((upsertRepo db orgId t g).1.pkgs.any
              (fun q => q.repositoryId == (upsertRepo db orgId t g).2.id)) = false := by
            revert hany
            cases ((upsertRepo db orgId t g).1.pkgs.any
              (fun q => q.repositoryId == (upsertRepo db orgId t g).2.id)) <;> simp
          have hnopkgmatch : ∀ q ∈ (upsertRepo db orgId t g).1.pkgs,
              (q.repositoryId == (upsertRepo db orgId t g).2.id) = false := by
            intro q hq
            by_contra habs
            have h1 : (q.repositoryId == (upsertRepo db orgId t g).2.id) = true := by
              revert habs
              cases (q.repositoryId == (upsertRepo db orgId t g).2.id) <;> simp
            have h2 : ((upsertRepo db orgId t g).1.pkgs.any
                (fun q => q.repositoryId == (upsertRepo db orgId t g).2.id)) = true :=
              List.any_eq_true.mpr ⟨q, hq, h1⟩
            rw [hany'] at h2
            exact absurd h2 (by simp)
          rw [upsertPkg_pkgs_neg hany',
            find?_append_cons_of_not hnopkgmatch
              (by exact beq_self_eq_true (upsertRepo db orgId t g).2.id) []]
          rfl
    | none =>
      have hkey := upsertRepo_none_id orgId t hf
      have hnomatch : ∀ x ∈ db.repos, (x.id == (upsertRepo db orgId t g).2.id) = false := by
        intro x hx
        rw [hkey]
        exact wf_no_repo_at_nextRepoId hwf x hx
      have hnewmatch : ((repoCreate db.nextRepoId orgId t g).id
          == (upsertRepo db orgId t g).2.id) = true := by
        rw [hkey]
        exact beq_self_eq_true db.nextRepoId
      refine ⟨(upsertRepo db orgId t g).2.id, ?_, ?_⟩
      · rw [setHasPkg_repos, (upsertPkg_frame _ _ _ _).1, upsertRepo_none_repos hf,
          updateFirst_append_of_not hnomatch hnewmatch _ [],
          find?_append_cons_of_not (fun x hx => by
            simpa using List.find?_eq_none.mp hf x hx) (by exact beq_self_eq_true g.id) []]
        show some (commonStable orgId g db.nextRepoId true) = _
        rw [hkey]
      · rw [setHasPkg_pkgs]
        have hany' : ((upsertRepo db orgId t g).1.pkgs.any
            (fun q => q.repositoryId == (upsertRepo db orgId t g).2.id)) = false := by
          rw [(upsertRepo_frame db orgId t g).1, hkey]
          by_contra habs
          have h1 : (db.pkgs.any (fun q => q.repositoryId == db.nextRepoId)) = true := by
            revert habs
            cases (db.pkgs.any (fun q => q.repositoryId == db.nextRepoId)) <;> simp
          obtain ⟨q, hq, hqp⟩ := List.any_eq_true.mp h1
          rw [wf_no_pkg_at_nextRepoId hwf q hq] at hqp
          exact absurd hqp (by simp)
        have hnopkgmatch : ∀ q ∈ (upsertRepo db orgId t g).1.pkgs,
            (q.repositoryId == (upsertRepo db orgId t g).2.id) = false := by
          intro q hq
          rw [(upsertRepo_frame db orgId t g).1] at hq
          rw [hkey]
          exact wf_no_pkg_at_nextRepoId hwf q hq
        rw [upsertPkg_pkgs_neg hany',
          find?_append_cons_of_not hnopkgmatch
            (by exact beq_self_eq_true (upsertRepo db orgId t g).2.id) []]
        rfl

lemma processRepo_repos_shape (env : String → String → FetchResult) (orgId t : Nat)
    (g : GithubRepo) (db : DB) (c : Counters) (hwf : WF db) :
    (processRepo env orgId t g db c).1.repos = db.repos
    ∨ (∃ l₁ r0 y l₂, db.repos = l₁ ++ r0 :: l₂
        ∧ (processRepo env orgId t g db c).1.repos = l₁ ++ y :: l₂
        ∧ r0.githubId = g.id ∧ y.githubId = g.id)
    ∨ (∃ y, (processRepo env orgId t g db c).1.repos = db.repos ++ [y]
        ∧ y.githubId = g.id) := by
  cases henv : env g.owner_login g.name with
  | okUnparseable =>
    rw [processRepo_okUnparseable db c henv]
    exact Or.inl rfl
  | err st =>
    rw [processRepo_err db c henv]
    cases hf : db.repos.find? (fun x => x.githubId == g.id) with
    | some r0 =>
      have hmatch := List.find?_some hf
      have hgh : r0.githubId = g.id := by simpa using hmatch
      obtain ⟨l₁, l₂, hdec, hl₁⟩ := find?_decomp hf
      refine Or.inr (Or.inl ⟨l₁, r0, repoUpdate orgId t g r0, l₂, hdec, ?_, hgh, rfl⟩)
      rw [upsertRepo_found_repos hf, hdec,
        updateFirst_append_of_not hl₁ hmatch (repoUpdate orgId t g) l₂]
    | none =>
      refine Or.inr (Or.inr ⟨repoCreate db.nextRepoId orgId t g, ?_, rfl⟩)
      rw [upsertRepo_none_repos hf]
  | notFound =>
    rw [processRepo_notFound db c henv]
    cases hf : db.repos.find? (fun x => x.githubId == g.id) with
    | some r0 =>
      have hmatch := List.find?_some hf
      have hgh : r0.githubId = g.id := by simpa using hmatch
      obtain ⟨l₁, l₂, hdec, hl₁⟩ := find?_decomp hf
      have hids : ((l₁ ++ r0 :: l₂).map (fun (r : RepoRow) => r.id)).Nodup := by
        rw [← hdec]; exact ((WF_iff db).mp hwf).1
      have hne := nodup_decomp_ne (f := fun (r : RepoRow) => r.id) hids
      have hkey := upsertRepo_found_id orgId t hf
      have hl₁id : ∀ x ∈ l₁, (x.id == (upsertRepo db orgId t g).2.id) = false := by
        intro x hx
        rw [hkey]
        simpa using hne.1 x hx
      have hmidmatch : ((repoUpdate orgId t g r0).id
          == (upsertRepo db orgId t g).2.id) = true := by
        rw [hkey]
        exact beq_self_eq_true r0.id
      refine Or.inr (Or.inl ⟨l₁, r0,
        { repoUpdate orgId t g r0 with hasPackageJson := false }, l₂, hdec, ?_, hgh, rfl⟩)
      rw [setHasPkg_repos, deletePkgs_repos, upsertRepo_found_repos hf, hdec,
        updateFirst_append_of_not hl₁ hmatch (repoUpdate orgId t g) l₂,
        updateFirst_append_of_not hl₁id hmidmatch _ l₂]
    | none =>
      have hkey := upsertRepo_none_id orgId t hf
      have hnomatch : ∀ x ∈ db.repos, (x.id == (upsertRepo db orgId t g).2.id) = false := by
        intro x hx
        rw [hkey]
        exact wf_no_repo_at_nextRepoId hwf x hx
      have hnewmatch : ((repoCreate db.nextRepoId orgId t g).id
          == (upsertRepo db orgId t g).2.id) = true := by
        rw [hkey]
        exact beq_self_eq_true db.nextRepoId
      refine Or.inr (Or.inr ⟨{ repoCreate db.nextRepoId orgId t g with hasPackageJson := false },
        ?_, rfl⟩)
      rw [setHasPkg_repos, deletePkgs_repos, upsertRepo_none_repos hf,
        updateFirst_append_of_not hnomatch hnewmatch _ []]
  | ok content =>
    rw [processRepo_ok db c henv]
    cases hf : db.repos.find? (fun x => x.githubId == g.id) with
    | some r0 =>
      have hmatch := List.find?_some hf
      have hgh : r0.githubId = g.id := by simpa using hmatch
      obtain ⟨l₁, l₂, hdec, hl₁⟩ := find?_decomp hf
      have hids : ((l₁ ++ r0 :: l₂).map (fun (r : RepoRow) => r.id)).Nodup := by
        rw [← hdec]; exact ((WF_iff db).mp hwf).1
      have hne := nodup_decomp_ne (f := fun (r : RepoRow) => r.id) hids
      have hkey := upsertRepo_found_id orgId t hf
      have hl₁id : ∀ x ∈ l₁, (x.id == (upsertRepo db orgId t g).2.id) = false := by
        intro x hx
        rw [hkey]
        simpa using hne.1 x hx
      have hmidmatch : ((repoUpdate orgId t g r0).id
          == (upsertRepo db orgId t g).2.id) = true := by
        rw [hkey]
        exact beq_self_eq_true r0.id
      refine Or.inr (Or.inl ⟨l₁, r0,
        { repoUpdate orgId t g r0 with hasPackageJson := true }, l₂, hdec, ?_, hgh, rfl⟩)
      rw [setHasPkg_repos, (upsertPkg_frame _ _ _ _).1, upsertRepo_found_repos hf, hdec,
        updateFirst_append_of_not hl₁ hmatch (repoUpdate orgId t g) l₂,
        updateFirst_append_of_not hl₁id hmidmatch _ l₂]
    | none =>
      have hkey := upsertRepo_none_id orgId t hf
      have hnomatch : ∀ x ∈ db.repos, (x.id == (upsertRepo db orgId t g).2.id) = false := by
        intro x hx
        rw [hkey]
        exact wf_no_repo_at_nextRepoId hwf x hx
      have hnewmatch : ((repoCreate db.nextRepoId orgId t g).id
          == (upsertRepo db orgId t g).2.id) = true := by
        rw [hkey]
        exact beq_self_eq_true db.nextRepoId
      refine Or.inr (Or.inr ⟨{ repoCreate db.nextRepoId orgId t g with hasPackageJson := true },
        ?_, rfl⟩)
      rw [setHasPkg_repos, (upsertPkg_frame _ _ _ _).1, upsertRepo_none_repos hf,
        updateFirst_append_of_not hnomatch hnewmatch _ []]

lemma processRepo_pkgs_shape (env : String → String → FetchResult) (orgId t : Nat)
    (g : GithubRepo) (db : DB) (c : Counters) :
    (processRepo env orgId t g db c).1.pkgs = db.pkgs
    ∨ (∃ n₁ p0 y n₂, db.pkgs = n₁ ++ p0 :: n₂
        ∧ (processRepo env orgId t g db c).1.pkgs = n₁ ++ y :: n₂
        ∧ p0.repositoryId = (upsertRepo db orgId t g).2.id
        ∧ y.repositoryId = (upsertRepo db orgId t g).2.id)
    ∨ (∃ y, (processRepo env orgId t g db c).1.pkgs = db.pkgs ++ [y]
        ∧ y.repositoryId = (upsertRepo db orgId t g).2.id)
    ∨ (processRepo env orgId t g db c).1.pkgs
        = db.pkgs.filter (fun q => !(q.repositoryId == (upsertRepo db orgId t g).2.id)) := by
  cases henv : env g.owner_login g.name with
  | okUnparseable =>
    rw [processRepo_okUnparseable db c henv]
    exact Or.inl rfl
  | err st =>
    rw [processRepo_err db c henv]
    exact Or.inl (upsertRepo_frame db orgId t g).1
  | notFound =>
    rw [processRepo_notFound db c henv]
    refine Or.inr (Or.inr (Or.inr ?_))
    rw [setHasPkg_pkgs, deletePkgs_pkgs, (upsertRepo_frame db orgId t g).1]
  | ok content =>
    rw [processRepo_ok db c henv]
    by_cases hany : ((upsertRepo db orgId t g).1.pkgs.any
        (fun q => q.repositoryId == (upsertRepo db orgId t g).2.id)) = true
    · obtain ⟨q0, hq0mem, hq0p⟩ := List.any_eq_true.mp hany
      obtain ⟨b, hbfind⟩ := exists_find?_eq_some
        (p := fun q => q.repositoryId == (upsertRepo db orgId t g).2.id) hq0mem hq0p
      have hbmatch := List.find?_some hbfind
      have hbid : b.repositoryId = (upsertRepo db orgId t g).2.id := by simpa using hbmatch
      obtain ⟨n₁, n₂, hpdec, hn₁⟩ := find?_decomp hbfind
      rw [(upsertRepo_frame db orgId t g).1] at hpdec
      refine Or.inr (Or.inl ⟨n₁, b, pkgFields (upsertRepo db orgId t g).2.id t content, n₂,
        hpdec, ?_, hbid, rfl⟩)
      rw [setHasPkg_pkgs, upsertPkg_pkgs_pos hany, (upsertRepo_frame db orgId t g).1, hpdec,
        updateFirst_append_of_not hn₁ hbmatch _ n₂]
    · have hany' : ((upsertRepo db orgId t g).1.pkgs.any
          (fun q => q.repositoryId == (upsertRepo db orgId t g).2.id)) = false := by
        revert hany
        cases ((upsertRepo db orgId t g).1.pkgs.any
          (fun q => q.repositoryId == (upsertRepo db orgId t g).2.id)) <;> simp
      refine Or.inr (Or.inr (Or.inl ⟨pkgFields (upsertRepo db orgId t g).2.id t content, ?_, rfl⟩))
      rw [setHasPkg_pkgs, upsertPkg_pkgs_neg hany', (upsertRepo_frame db orgId t g).1]

lemma processRepo_find_repos_other (env : String → String → FetchResult) (orgId t : Nat)
    (g : GithubRepo) (db : DB) (c : Counters) {k : Nat} (hk : k ≠ g.id) (hwf : WF db) :
    (processRepo env orgId t g db c).1.repos.find? (fun x => x.githubId == k)
      = db.repos.find? (fun x => x.githubId == k) := by
  have hkbeq : ∀ (x : RepoRow), x.githubId = g.id → ((x.githubId == k) = false) := by
    intro x hx
    rw [hx]
    simp
    exact fun hh => hk hh.symm
  rcases processRepo_repos_shape env orgId t g db c hwf with heq |
    ⟨l₁, r0, y, l₂, hdec, hres, hr0, hy⟩ | ⟨y, hres, hy⟩
  · rw [heq]
  · rw [hres, hdec]
    exact find?_middle_congr (p := fun x => x.githubId == k) (hkbeq y hy) (hkbeq r0 hr0) l₁ l₂
  · rw [hres, List.find?_append]
    have hsing : List.find? (fun x => x.githubId == k) [y] = none := by
      rw [List.find?_eq_none]
      intro x hx
      rw [List.mem_singleton] at hx
      subst hx
      simp [hkbeq x hy]
    rw [hsing, Option.or_none]

lemma processRepo_find_pkgs_other (env : String → String → FetchResult) (orgId t : Nat)
    (g : GithubRepo) (db : DB) (c : Counters) {m : Nat}
    (hm : m ≠ (upsertRepo db orgId t g).2.id) :
    (processRepo env orgId t g db c).1.pkgs.find? (fun q => q.repositoryId == m)
      = db.pkgs.find? (fun q => q.repositoryId == m) := by
  have hmbeq : ∀ (q : PkgRow), q.repositoryId = (upsertRepo db orgId t g).2.id →
      ((q.repositoryId == m) = false) := by
    intro q hq
    rw [hq]
    simp
    exact fun hh => hm hh.symm
  rcases processRepo_pkgs_shape env orgId t g db c with heq |
    ⟨n₁, p0, y, n₂, hdec, hres, hp0, hy⟩ | ⟨y, hres, hy⟩ | hres
  · rw [heq]
  · rw [hres, hdec]
    exact find?_middle_congr (p := fun q => q.repositoryId == m) (hmbeq y hy) (hmbeq p0 hp0) n₁ n₂
  · rw [hres, List.find?_append]
    have hsing : List.find? (fun q => q.repositoryId == m) [y] = none := by
      rw [List.find?_eq_none]
      intro x hx
      rw [List.mem_singleton] at hx
      subst hx
      simp [hmbeq x hy]
    rw [hsing, Option.or_none]
  · rw [hres]
    refine find?_filter_keep ?_ db.pkgs
    intro x hx
    have hxm : x.repositoryId = m := by simpa using hx
    have : x.repositoryId ≠ (upsertRepo db orgId t g).2.id := by
      rw [hxm]
      exact hm
    simp [this]

lemma processRepo_nopkg_other (env : String → String → FetchResult) (orgId t : Nat)
    (g : GithubRepo) (db : DB) (c : Counters) {m : Nat}
    (hm : m ≠ (upsertRepo db orgId t g).2.id)
    (hall : ∀ q ∈ db.pkgs, q.repositoryId ≠ m) :
    ∀ q ∈ (processRepo env orgId t g db c).1.pkgs, q.repositoryId ≠ m := by
  rcases processRepo_pkgs_shape env orgId t g db c with heq |
    ⟨n₁, p0, y, n₂, hdec, hres, hp0, hy⟩ | ⟨y, hres, hy⟩ | hres
  · rw [heq]
    exact hall
  · rw [hres]
    intro q hq
    rcases List.mem_append.mp hq with hq1 | hq2
    · exact hall q (by rw [hdec]; exact List.mem_append_left _ hq1)
    · rcases List.mem_cons.mp hq2 with rfl | hq3
      · rw [hy]
        exact fun hh => hm hh.symm
      · exact hall q (by rw [hdec]; exact List.mem_append_right _ (List.mem_cons_of_mem _ hq3))
  · rw [hres]
    intro q hq
    rcases List.mem_append.mp hq with hq1 | hq2
    · exact hall q hq1
    · rw [List.mem_singleton] at hq2
      subst hq2
      rw [hy]
      exact fun hh => hm hh.symm
  · rw [hres]
    intro q hq
    exact hall q (List.mem_filter.mp hq).1

lemma other_rid_ne {db : DB} {orgId t : Nat} {g : GithubRepo} (hwf : WF db)
    {rh : RepoRow} (hmem : rh ∈ db.repos) (hgh : rh.githubId ≠ g.id) :
    rh.id ≠ (upsertRepo db orgId t g).2.id := by
  cases hfg : db.repos.find? (fun x => x.githubId == g.id) with
  | some r0 =>
    rw [upsertRepo_found_id orgId t hfg]
    have hr0mem := List.mem_of_find?_eq_some hfg
    have hr0gh : r0.githubId = g.id := by simpa using List.find?_some hfg
    intro habs
    have hids := ((WF_iff db).mp hwf).1
    have : rh = r0 := List.inj_on_of_nodup_map hids hmem hr0mem habs
    rw [this, hr0gh] at hgh
    exact hgh rfl
  | none =>
    rw [upsertRepo_none_id orgId t hfg]
    exact Nat.ne_of_lt (((WF_iff db).mp hwf).2.2.1 rh hmem)

lemma processRepo_preserves_other (env : String → String → FetchResult) (orgId t : Nat)
    (g h : GithubRepo) (db : DB) (c : Counters)
    (hwf : WF db) (hneq : h.id ≠ g.id) (hsf : StableFor env orgId h db) :
    StableFor env orgId h (processRepo env orgId t g db c).1 := by
  unfold StableFor at hsf ⊢
  cases henvh : env h.owner_login h.name with
  | okUnparseable => trivial
  | err st =>
    rw [henvh] at hsf
    obtain ⟨rid, flag, hfind⟩ := hsf
    refine ⟨rid, flag, ?_⟩
    rw [processRepo_find_repos_other env orgId t g db c hneq hwf]
    exact hfind
  | ok content =>
    rw [henvh] at hsf
    obtain ⟨rid, hfind, hpfind⟩ := hsf
    obtain ⟨rh, hrhfind, hrhst⟩ := Option.map_eq_some'.mp hfind
    have hrh_id : rh.id = rid := congrArg RepoStable.id hrhst
    have hrh_gh : rh.githubId = h.id := congrArg RepoStable.githubId hrhst
    have hrh_mem := List.mem_of_find?_eq_some hrhfind
    have hmne : rid ≠ (upsertRepo db orgId t g).2.id := by
      rw [← hrh_id]
      exact other_rid_ne hwf hrh_mem (by rw [hrh_gh]; exact hneq)
    refine ⟨rid, ?_, ?_⟩
    · rw [processRepo_find_repos_other env orgId t g db c hneq hwf]
      exact hfind
    · rw [processRepo_find_pkgs_other env orgId t g db c hmne]
      exact hpfind
  | notFound =>
    rw [henvh] at hsf
    obtain ⟨rid, hfind, hnopkg⟩ := hsf
    obtain ⟨rh, hrhfind, hrhst⟩ := Option.map_eq_some'.mp hfind
    have hrh_id : rh.id = rid := congrArg RepoStable.id hrhst
    have hrh_gh : rh.githubId = h.id := congrArg RepoStable.githubId hrhst
    have hrh_mem := List.mem_of_find?_eq_some hrhfind
    have hmne : rid ≠ (upsertRepo db orgId t g).2.id := by
      rw [← hrh_id]
      exact other_rid_ne hwf hrh_mem (by rw [hrh_gh]; exact hneq)
    refine ⟨rid, ?_, ?_⟩
    · rw [processRepo_find_repos_other env orgId t g db c hneq hwf]
      exact hfind
    · intro q hq
      exact processRepo_nopkg_other env orgId t g db c hmne
        (fun q hq => hnopkg q hq) q hq

lemma syncLoop_preserves (env : String → String → FetchResult) (orgId t : Nat)
    (h : GithubRepo) : ∀ (L : List GithubRepo) (db : DB) (c : Counters),
    WF db → StableFor env orgId h db → (∀ g' ∈ L, h.id ≠ g'.id) →
    StableFor env orgId h (syncLoop env orgId t L db c).1 := by
  intro L
  induction L with
  | nil => intro db c _ hsf _; exact hsf
  | cons g gs ih =>
    intro db c hwf hsf hne
    rw [syncLoop]
    exact ih (processRepo env orgId t g db c).1 (processRepo env orgId t g db c).2
      (wf_processRepo env orgId t g db c hwf)
      (processRepo_preserves_other env orgId t g h db c hwf
        (hne g (List.mem_cons_self g gs)) hsf)
      (fun g' hg' => hne g' (List.mem_cons_of_mem g hg'))

lemma syncLoop_saturates (env : String → String → FetchResult) (orgId t : Nat) :
    ∀ (L : List GithubRepo) (db : DB) (c : Counters),
    WF db → (L.map GithubRepo.id).Nodup →
    WF (syncLoop env orgId t L db c).1
    ∧ ∀ g ∈ L, StableFor env orgId g (syncLoop env orgId t L db c).1 := by
  intro L
  induction L with
  | nil => intro db c hwf _; exact ⟨hwf, by simp⟩
  | cons g gs ih =>
    intro db c hwf hnd
    rw [List.map_cons, List.nodup_cons] at hnd
    obtain ⟨hgnot, hnd'⟩ := hnd
    rw [syncLoop]
    have hwf' := wf_processRepo env orgId t g db c hwf
    have hest := processRepo_establishes env orgId t g db c hwf
    obtain ⟨hwfL, hsfL⟩ := ih (processRepo env orgId t g db c).1
      (processRepo env orgId t g db c).2 hwf' hnd'
    refine ⟨hwfL, ?_⟩
    intro g' hg'
    rcases List.mem_cons.mp hg' with rfl | hg'mem
    · refine syncLoop_preserves env orgId t g' gs _ _ hwf' hest ?_
      intro g'' hg''
      intro habs
      exact hgnot (habs ▸ List.mem_map_of_mem GithubRepo.id hg'')
    · exact hsfL g' hg'mem

lemma syncLoop_stable_eq (env : String → String → FetchResult) (orgId t : Nat) :
    ∀ (L : List GithubRepo) (db : DB) (c : Counters),
    WF db → (∀ g ∈ L, StableFor env orgId g db) →
    (syncLoop env orgId t L db c).1.stable = db.stable := by
  intro L
  induction L with
  | nil => intro db c _ _; rfl
  | cons g gs ih =>
    intro db c hwf hsf
    rw [syncLoop]
    have hstep : (processRepo env orgId t g db c).1.stable = db.stable :=
      processRepo_stable_eq env orgId t g db c hwf (hsf g (List.mem_cons_self g gs))
    have hwf' : WF (processRepo env orgId t g db c).1 := (WF_congr hstep).mpr hwf
    have hsf' : ∀ g' ∈ gs, StableFor env orgId g' (processRepo env orgId t g db c).1 :=
      fun g' hg' => (StableFor_congr hstep).mpr (hsf g' (List.mem_cons_of_mem g hg'))
    calc (syncLoop env orgId t gs (processRepo env orgId t g db c).1
          (processRepo env orgId t g db c).2).1.stable
        = (processRepo env orgId t g db c).1.stable := ih _ _ hwf' hsf'
      _ = db.stable := hstep

lemma processRepo_orgs (env : String → String → FetchResult) (orgId t : Nat)
    (g : GithubRepo) (db : DB) (c : Counters) :
    (processRepo env orgId t g db c).1.orgs = db.orgs
    ∧ (processRepo env orgId t g db c).1.nextOrgId = db.nextOrgId := by
  cases henv : env g.owner_login g.name with
  | okUnparseable =>
    rw [processRepo_okUnparseable db c henv]
    exact ⟨rfl, rfl⟩
  | err st =>
    rw [processRepo_err db c henv]
    exact ⟨(upsertRepo_frame db orgId t g).2.1, (upsertRepo_frame db orgId t g).2.2⟩
  | notFound =>
    rw [processRepo_notFound db c henv]
    rw [setHasPkg_orgs, deletePkgs_orgs, setHasPkg_nextOrgId, deletePkgs_nextOrgId]
    exact ⟨(upsertRepo_frame db orgId t g).2.1, (upsertRepo_frame db orgId t g).2.2⟩
  | ok content =>
    rw [processRepo_ok db c henv]
    rw [setHasPkg_orgs, setHasPkg_nextOrgId, (upsertPkg_frame _ _ _ _).2.1,
      (upsertPkg_frame _ _ _ _).2.2.2]
    exact ⟨(upsertRepo_frame db orgId t g).2.1, (upsertRepo_frame db orgId t g).2.2⟩

lemma syncLoop_orgs (env : String → String → FetchResult) (orgId t : Nat) :
    ∀ (L : List GithubRepo) (db : DB) (c : Counters),
    (syncLoop env orgId t L db c).1.orgs = db.orgs := by
  intro L
  induction L with
  | nil => intro db c; rfl
  | cons g gs ih =>
    intro db c
    rw [syncLoop, ih]
    exact (processRepo_orgs env orgId t g db c).1

lemma upsertOrg_frame (db : DB) (n : String) :
    (upsertOrg db n).1.repos = db.repos ∧ (upsertOrg db n).1.pkgs = db.pkgs
    ∧ (upsertOrg db n).1.nextRepoId = db.nextRepoId := by
  unfold upsertOrg
  cases db.orgs.find? (fun o => o.name == n) <;> exact ⟨rfl, rfl, rfl⟩

lemma wf_upsertOrg {db : DB} {n : String} (hwf : WF db) : WF (upsertOrg db n).1 := by
  rw [WF_iff] at hwf ⊢
  rw [(upsertOrg_frame db n).1, (upsertOrg_frame db n).2.1, (upsertOrg_frame db n).2.2]
  exact hwf

lemma upsertOrg_of_found {db : DB} {n : String} {o : OrgRow}
    (hf : db.orgs.find? (fun x => x.name == n) = some o) :
    upsertOrg db n = (db, o) := by
  unfold upsertOrg
  rw [hf]

lemma upsertOrg_finds (db : DB) (n : String) :
    (upsertOrg db n).1.orgs.find? (fun x => x.name == n) = some (upsertOrg db n).2 := by
  unfold upsertOrg
  cases hf : db.orgs.find? (fun x => x.name == n) with
  | some o => exact hf
  | none =>
    show (db.orgs ++ [(⟨db.nextOrgId, n⟩ : OrgRow)]).find? (fun x => x.name == n)
      = some (⟨db.nextOrgId, n⟩ : OrgRow)
    refine find?_append_cons_of_not ?_ (by exact beq_self_eq_true n) []
    intro x hx
    have := List.find?_eq_none.mp hf x hx
    revert this
    cases (x.name == n) <;> simp

/-- C8: running the sync twice against an unchanged remote yields identical
stored rows — same ids and same field values except the refreshed
`lastFetchedAt`/`fetchedAt` timestamps (`DB.stable` erases exactly those two
columns) — and the same `successCount`, provided the starting store is
well-formed and the listing carries no duplicate remote ids.  Every upsert is
individually idempotent: the second run's organization upsert, repository
upserts and manifest upserts find their rows and rewrite the same values with
fresh timestamps. -/
theorem C8_sync_idempotent (env : String → String → FetchResult) (t1 t2 : Nat)
    (orgName : String) (L : List GithubRepo) (db0 : DB)
    (hwf : WF db0) (hnd : (L.map GithubRepo.id).Nodup) :
    DB.stable (syncOrganizationRepos env t2 orgName L
        (syncOrganizationRepos env t1 orgName L db0).1).1
      = DB.stable (syncOrganizationRepos env t1 orgName L db0).1
    ∧ (syncOrganizationRepos env t2 orgName L
        (syncOrganizationRepos env t1 orgName L db0).1).2.successCount
      = (syncOrganizationRepos env t1 orgName L db0).2.successCount := by
  constructor
  · have hwfA : WF (upsertOrg db0 orgName).1 := wf_upsertOrg hwf
    obtain ⟨hwf1, hsat1⟩ := syncLoop_saturates env (upsertOrg db0 orgName).2.id t1 L
      (upsertOrg db0 orgName).1 ⟨0, 0, 0⟩ hwfA hnd
    have horgs1 : (syncLoop env (upsertOrg db0 orgName).2.id t1 L
        (upsertOrg db0 orgName).1 ⟨0, 0, 0⟩).1.orgs = (upsertOrg db0 orgName).1.orgs :=
      syncLoop_orgs env (upsertOrg db0 orgName).2.id t1 L (upsertOrg db0 orgName).1 ⟨0, 0, 0⟩
    have hfind2 : (syncLoop env (upsertOrg db0 orgName).2.id t1 L
        (upsertOrg db0 orgName).1 ⟨0, 0, 0⟩).1.orgs.find? (fun x => x.name == orgName)
        = some (upsertOrg db0 orgName).2 := by
      rw [horgs1]
      exact upsertOrg_finds db0 orgName
    have hup2 := upsertOrg_of_found hfind2
    show DB.stable (syncLoop env
        (upsertOrg (syncLoop env (upsertOrg db0 orgName).2.id t1 L
          (upsertOrg db0 orgName).1 ⟨0, 0, 0⟩).1 orgName).2.id t2 L
        (upsertOrg (syncLoop env (upsertOrg db0 orgName).2.id t1 L
          (upsertOrg db0 orgName).1 ⟨0, 0, 0⟩).1 orgName).1 ⟨0, 0, 0⟩).1
      = DB.stable (syncLoop env (upsertOrg db0 orgName).2.id t1 L
          (upsertOrg db0 orgName).1 ⟨0, 0, 0⟩).1
    rw [hup2]
    exact syncLoop_stable_eq env (upsertOrg db0 orgName).2.id t2 L _ ⟨0, 0, 0⟩ hwf1 hsat1
  · have hcount : ∀ (t : Nat) (db : DB),
        (syncOrganizationRepos env t orgName L db).2.successCount
          = L.countP (fun g => isFetchSuccess (env g.owner_login g.name)) := by
      intro t db
      simp [syncOrganizationRepos, syncLoop_counters]
    rw [hcount, hcount]

/-- An environment where `alpha` has a parseable manifest and every other
repository returns 404. -/
def envMixed : String → String → FetchResult := fun _ repo =>
  if repo == "alpha" then
    .ok ⟨some "alpha", some "1.0.0", none, none, some "MIT",
      some [("lodash", "4.0.0")], none, none⟩
  else .notFound

/-- Witness for C8: a two-repository organization synced twice from the
empty store. -/
theorem C8_sync_idempotent_witness :
    DB.stable (syncOrganizationRepos envMixed 2 "acme" [gAlpha, gBeta]
        (syncOrganizationRepos envMixed 1 "acme" [gAlpha, gBeta] dbEmpty).1).1
      = DB.stable (syncOrganizationRepos envMixed 1 "acme" [gAlpha, gBeta] dbEmpty).1
    ∧ (syncOrganizationRepos envMixed 2 "acme" [gAlpha, gBeta]
        (syncOrganizationRepos envMixed 1 "acme" [gAlpha, gBeta] dbEmpty).1).2.successCount
      = (syncOrganizationRepos envMixed 1 "acme" [gAlpha, gBeta] dbEmpty).2.successCount :=
  C8_sync_idempotent envMixed 1 2 "acme" [gAlpha, gBeta] dbEmpty (by decide) (by decide)
